import Mathlib

/-!
# Verification of `language-rs` against its specification

A shallow embedding of the `language-rs` compiler-and-VM pipeline
(lexer, type checker, assembler, runtime) translated from the Rust
sources in `src/`, together with theorems settling the specification
claims about it.

Machine integers are modelled as `Nat`/`Int` with explicit reductions
modulo `2 ^ w` where wrap-around matters.  Rust panics (out-of-bounds
indexing, `unwrap`, `panic!`) are modelled by `Option`/`Except`
failure values, distinguished from ordinary diagnostics.  `f64`
literal payloads are carried as the raw decimal text they were parsed
from (`F64Lit`), since no claim depends on the numeric value of a
float literal and Rust's `f64` parse is total on the lexer's float
syntax; where float *bit patterns* matter (the VM heap) they are
modelled as 64-bit words.
-/

set_option linter.unusedVariables false

namespace LanguageRs

/-- Source ranges (`CRange` in `src/util.rs`).  The Rust field `end` is a
Lean keyword and is rendered `stop`. -/
structure CRange where
  start : Nat
  stop : Nat
  deriving DecidableEq, Repr

/-- `newr` from `src/util.rs`. -/
def newr (start stop : Nat) : CRange := ⟨start, stop⟩

/-- `joinr` from `src/util.rs`. -/
def joinr (l r : CRange) : CRange := ⟨l.start, r.stop⟩

/-- An `f64` literal payload, carried as the decimal source bytes it was
parsed from (see module docstring). -/
abbrev F64Lit := List Nat

/-- Types of the toy language (`Type` in `src/syntax_tree.rs`). -/
inductive Ty : Type where
  | none : Ty
  | any : Ty
  | int : Ty
  | float : Ty
  | bool : Ty
  | function : Ty → List Ty → Ty
  deriving Repr

mutual

/-- Structural equality test on `Ty` (Rust's derived `PartialEq` on `Type`). -/
def Ty.beq : Ty → Ty → Bool
  | .none, .none => true
  | .any, .any => true
  | .int, .int => true
  | .float, .float => true
  | .bool, .bool => true
  | .function r1 a1, .function r2 a2 => Ty.beq r1 r2 && Ty.beqList a1 a2
  | _, _ => false

/-- Pointwise structural equality on argument lists. -/
def Ty.beqList : List Ty → List Ty → Bool
  | [], [] => true
  | x :: xs, y :: ys => Ty.beq x y && Ty.beqList xs ys
  | _, _ => false

end

mutual

theorem Ty.eq_of_beq : ∀ {a b : Ty}, Ty.beq a b = true → a = b
  | .none, .none, _ => rfl
  | .any, .any, _ => rfl
  | .int, .int, _ => rfl
  | .float, .float, _ => rfl
  | .bool, .bool, _ => rfl
  | .function r1 a1, .function r2 a2, h => by
    simp only [Ty.beq, Bool.and_eq_true] at h
    rw [Ty.eq_of_beq h.1, Ty.eqList_of_beq h.2]

theorem Ty.eqList_of_beq : ∀ {a b : List Ty}, Ty.beqList a b = true → a = b
  | [], [], _ => rfl
  | x :: xs, y :: ys, h => by
    simp only [Ty.beqList, Bool.and_eq_true] at h
    rw [Ty.eq_of_beq h.1, Ty.eqList_of_beq h.2]

end

mutual

theorem Ty.beq_refl : ∀ (a : Ty), Ty.beq a a = true
  | .none => rfl
  | .any => rfl
  | .int => rfl
  | .float => rfl
  | .bool => rfl
  | .function r a => by
    simp only [Ty.beq, Bool.and_eq_true]
    exact ⟨Ty.beq_refl r, Ty.beqList_refl a⟩

theorem Ty.beqList_refl : ∀ (a : List Ty), Ty.beqList a a = true
  | [] => rfl
  | x :: xs => by
    simp only [Ty.beqList, Bool.and_eq_true]
    exact ⟨Ty.beq_refl x, Ty.beqList_refl xs⟩

end

instance : DecidableEq Ty := fun a b =>
  if h : Ty.beq a b = true then .isTrue (Ty.eq_of_beq h)
  else .isFalse (fun he => h (he ▸ Ty.beq_refl a))

/-- `TypeChecker::is_assignment_compatible` from `src/type_checker.rs`
(lines 578-589).  The Rust parameter `to` is a Lean keyword and is
rendered `to_`. -/
def is_assignment_compatible (to_ value : Ty) : Bool :=
  match value with
  | Ty.none => true
  | _ =>
    match to_ with
    | Ty.any => true
    | Ty.none => false
    | x => decide (x = value)

/-! ## Typed intermediate representation (`src/syntax_tree.rs`) -/

/-- `Declaration` from `src/syntax_tree.rs`. -/
structure Declaration where
  uid : Nat
  deriving DecidableEq, Repr

/-- `TExpr` from `src/syntax_tree.rs`.  Integer payloads are the `i64`
values produced by the checker; float payloads are literal text
(`F64Lit`). -/
inductive TExpr : Type where
  | ident (uid : Nat) (type_ : Ty)
  | none
  | int (value : Int)
  | float (value : F64Lit)
  | bool (value : Bool)
  | minus (left right : TExpr) (type_ : Ty)
  | add (left right : TExpr) (type_ : Ty)
  | call (callee_uid : Nat) (arguments : List TExpr) (type_ : Ty)
  | ecall (arguments : List TExpr)
  deriving Repr

/-- `TExpr::type_` from `src/syntax_tree.rs`. -/
def TExpr.type_ : TExpr → Ty
  | .ident _ t => t
  | .int _ => Ty.int
  | .float _ => Ty.float
  | .bool _ => Ty.bool
  | .none => Ty.none
  | .minus _ _ t => t
  | .add _ _ t => t
  | .call _ _ t => t
  | .ecall _ => Ty.none

/-- `TStmt` from `src/syntax_tree.rs`.  The Rust variant names `If`,
`While`, `Break`, `Return` collide with Lean keywords and are rendered
`sif`, `swhile`, `sbreak`, `sreturn`. -/
inductive TStmt : Type where
  | expr (e : TExpr)
  | assign (uid : Nat) (value : TExpr)
  | function (uid : Nat) (argument_uids : List Nat)
      (declarations : List Declaration) (stmts : List TStmt)
  | sif (condition : TExpr) (if_true : List TStmt) (if_false : List TStmt)
  | swhile (condition : TExpr) (block : List TStmt) (else_block : List TStmt)
  | sbreak
  | sreturn (ret_val : TExpr)
  deriving Repr

/-- `TProgram` from `src/syntax_tree.rs`. -/
structure TProgram where
  declarations : List Declaration
  stmts : List TStmt
  deriving Repr

/-! ## Runtime value model (`src/runtime.rs`) -/

/-- `NONE_VALUE` from `src/runtime.rs`: `!0` as a 64-bit `usize`. -/
def NONE_VALUE : Nat := 2 ^ 64 - 1

/-- `ObjectHeader` from `src/runtime.rs`. -/
structure ObjectHeader where
  type_index : Nat
  object_size : Nat
  deriving DecidableEq, Repr

/-- `ObjectHeader::to_bits`: `(type_index << 32) + object_size` as `u64`. -/
def ObjectHeader.to_bits (h : ObjectHeader) : Nat :=
  (h.type_index % 2 ^ 32 * 2 ^ 32 + h.object_size) % 2 ^ 64

def INT_HEADER : ObjectHeader := ⟨0, 1⟩
def FLOAT_HEADER : ObjectHeader := ⟨1, 1⟩
def BOOL_HEADER : ObjectHeader := ⟨2, 1⟩
def STRING_TYPE_INDEX : Nat := 3
def STACK_FRAME_TYPE_INDEX : Nat := 4
def PRINT_PRIMITIVE : Nat := 0
def FLOAT_CAST : Nat := 1

/-- `Runtime::get_obj_header`: reads `heap[idx - 1]` and unpacks it.
Out-of-bounds indexing (including the wrap of `idx - 1` when `idx = 0`)
is a Rust panic, modelled as `Option.none`. -/
def get_obj_header (heap : List Nat) (idx : Nat) : Option ObjectHeader :=
  if idx = 0 then Option.none
  else match heap.get? (idx - 1) with
    | some header => some ⟨header / 2 ^ 32, header % 2 ^ 32⟩
    | Option.none => Option.none

/-- Whether a 64-bit word is an IEEE-754 `f64` bit pattern equal to
`0.0`: exactly `+0.0` (all zeros) and `-0.0` (sign bit only) compare
equal to `0.0`; every NaN compares unequal. -/
def f64_bits_eq_zero (bits : Nat) : Bool :=
  bits = 0 || bits = 2 ^ 63

/-- `Runtime::eval_bool` from `src/runtime.rs` (lines 304-315).  The
`panic!` on any other header, and out-of-bounds heap reads, are
modelled as `Option.none`. -/
def eval_bool (heap : List Nat) (value : Nat) : Option Bool :=
  if value = NONE_VALUE then some true
  else
    match get_obj_header heap value with
    | some h =>
      if h = INT_HEADER ∨ h = BOOL_HEADER then
        match heap.get? value with
        | some w => some (decide (w ≠ 0))
        | Option.none => Option.none
      else if h = FLOAT_HEADER then
        match heap.get? value with
        | some w => some (! f64_bits_eq_zero w)
        | Option.none => Option.none
      else Option.none
    | Option.none => Option.none

/-! ## Assembler (`src/assembler.rs`) -/

/-- `Opcode` from `src/runtime.rs`.  `MakeFloat` carries an `F64Lit`
(see module docstring); addresses and offsets are `Nat`/`Int` as in
the source (`u32`/`i32`). -/
inductive Opcode : Type where
  | beginStringData (n : Nat)
  | stringData (n : Nat)
  | makeInt (value : Int)
  | makeFloat (value : F64Lit)
  | makeBool (value : Bool)
  | addFloat
  | addInt
  | subFloat
  | subInt
  | pushNone
  | pop
  | getGlobal (stack_offset : Nat)
  | setGlobal (stack_offset : Nat)
  | getLocal (stack_offset : Int)
  | setLocal (stack_offset : Int)
  | heapRead (offset : Nat)
  | heapWrite (offset : Nat)
  | heapAlloc (header : ObjectHeader)
  | ret
  | call (func : Nat)
  | jumpIf (address : Nat)
  | jumpNotIf (address : Nat)
  | jump (address : Nat)
  | ecall
  deriving DecidableEq, Repr

/-- Association-list lookup, modelling `HashMap::get`. -/
def lookupA {α : Type} [DecidableEq α] {β : Type} : List (α × β) → α → Option β
  | [], _ => Option.none
  | (k, v) :: rest, key => if k = key then some v else lookupA rest key

/-- `OffsetInfo` from `src/assembler.rs`. -/
structure OffsetInfo where
  scope_offset : Nat
  var_offset : Nat
  deriving DecidableEq, Repr

/-- `OffsetTable` from `src/assembler.rs`: a map `uid → offset` plus an
optional parent scope.  The Rust parent pointer becomes a snapshot of
the parent table. -/
inductive OffsetTable : Type where
  | mk (uids : List (Nat × Nat)) (parent : Option OffsetTable)

/-- `OffsetTable::search` (via `search_unsafe`): walk the parent chain,
counting how many scopes up the symbol is found. -/
def OffsetTable.search : OffsetTable → Nat → Option OffsetInfo
  | .mk uids parent, symbol =>
    match lookupA uids symbol with
    | some var_offset => some ⟨0, var_offset⟩
    | Option.none =>
      match parent with
      | some p => (p.search symbol).map fun i => ⟨i.scope_offset + 1, i.var_offset⟩
      | Option.none => Option.none

mutual

/-- `Assembler::convert_expression_to_ops` from `src/assembler.rs`
(lines 363-439), returning the opcodes it appends to `ops`.
`function_names` models the `Assembler::function_names` map; the
panicking map index `self.function_names[callee_uid]` and the
unwrapping `offsets.search` are modelled as `Option.none`. -/
def convert_expression_to_ops (function_names : List (Nat × Nat))
    (offsets : OffsetTable) : TExpr → Option (List Opcode)
  | .none => some [.pushNone]
  | .bool value => some [.makeBool value]
  | .int value => some [.makeInt value]
  | .float value => some [.makeFloat value]
  | .ident id _ =>
    match offsets.search id with
    | some info =>
      some ([.getLocal 0] ++ List.replicate info.scope_offset (.heapRead 0)
        ++ [.heapRead info.var_offset])
    | Option.none => Option.none
  | .minus left right type_ => do
    let lo ← convert_expression_to_ops function_names offsets left
    let ro ← convert_expression_to_ops function_names offsets right
    pure (lo ++ ro ++ [if type_ = Ty.float then .subFloat else .subInt])
  | .add left right type_ => do
    let lo ← convert_expression_to_ops function_names offsets left
    let ro ← convert_expression_to_ops function_names offsets right
    pure (lo ++ ro ++ [if type_ = Ty.float then .addFloat else .addInt])
  | .call callee_uid arguments _ => do
    let name ← lookupA function_names callee_uid
    let info ← offsets.search name
    let argOps ← convert_arguments_rev function_names offsets arguments
    pure ([.getLocal 0] ++ List.replicate info.scope_offset (.heapRead 0)
      ++ argOps ++ [.call callee_uid] ++ List.replicate arguments.length .pop)
  | .ecall arguments => do
    let argOps ← convert_arguments_rev function_names offsets arguments
    pure (argOps ++ [.ecall])

/-- The `for arg in arguments.iter().rev()` loops: arguments are lowered
last-to-first, with each argument's opcodes appended in turn. -/
def convert_arguments_rev (function_names : List (Nat × Nat))
    (offsets : OffsetTable) : List TExpr → Option (List Opcode)
  | [] => some []
  | e :: rest => do
    let restOps ← convert_arguments_rev function_names offsets rest
    let eOps ← convert_expression_to_ops function_names offsets e
    pure (restOps ++ eOps)

end

/-! ## Lexer (`src/lexer.rs`)

Input is the byte sequence of the source `&str`; bytes are `Nat`s below
256.  The `u16` indentation arithmetic and the `u8` parenthesis counter
wrap modulo `2 ^ 16` / `2 ^ 8`.  The Rust `Vec` indent stack has its top
at the *end*; we model it as a list with the top at the *head*, so
`push`/`pop`/`last` become cons/tail/head. -/

/-- `Token` from `src/lexer.rs`.  Variant names that are Lean keywords
get a trailing underscore. -/
inductive Token : Type where
  | pass (x : Nat)
  | return_ (x : Nat)
  | if_ (x : Nat)
  | else_ (x : Nat)
  | elif (x : Nat)
  | ident (id : Nat) (view : CRange)
  | lparen (x : Nat)
  | rparen (x : Nat)
  | plus (x : Nat)
  | comma (x : Nat)
  | newline (x : Nat)
  | colon (x : Nat)
  | dash (x : Nat)
  | dot (x : Nat)
  | equal (x : Nat)
  | def_ (x : Nat)
  | arrow (x : Nat)
  | indent (begin_ stop : Nat)
  | dedent (x : Nat)
  | unknownDedent (x : Nat)
  | unknown (begin_ stop : Nat)
  | end_ (x : Nat)
  | integer (value : Nat) (begin_ stop : Nat)
  | floatingPoint (value : F64Lit) (begin_ stop : Nat)
  deriving DecidableEq, Repr

/-- `LexerState` from `src/lexer.rs`. -/
inductive LexerState : Type where
  | normal
  | indentation
  | dedent
  | end_
  deriving DecidableEq, Repr

/-- `Lexer` from `src/lexer.rs`.  Identifier text is kept as byte
lists; `id_map` is an association list (insertion-ordered `HashMap`). -/
structure Lexer where
  data : List Nat
  id_list : List (List Nat)
  id_map : List (List Nat × Nat)
  indent_stack : List Nat
  index : Nat
  indent_level : Nat
  paren_count : Nat
  state : LexerState
  deriving Repr

/-- The byte-list spellings of `builtin_names()` from
`src/builtins.rs`: `print`, `float`, `int`, `bool`, `str`. -/
def builtin_name_list : List (List Nat) :=
  [[112, 114, 105, 110, 116], [102, 108, 111, 97, 116],
   [105, 110, 116], [98, 111, 111, 108], [115, 116, 114]]

/-- The seeded `name → id` map from `builtin_names()`. -/
def builtin_name_map : List (List Nat × Nat) :=
  [([112, 114, 105, 110, 116], 0), ([102, 108, 111, 97, 116], 1),
   ([105, 110, 116], 2), ([98, 111, 111, 108], 3), ([115, 116, 114], 4)]

/-- `Lexer::new` from `src/lexer.rs`. -/
def Lexer.new (data : List Nat) : Lexer :=
  { data := data, id_list := builtin_name_list, id_map := builtin_name_map,
    indent_stack := [0], index := 0, indent_level := 0, paren_count := 0,
    state := LexerState.indentation }

/-- `data[i]`, used only under in-bounds guards (mirroring guarded
`Lexer::cur` call sites). -/
def byteAt (data : List Nat) (i : Nat) : Nat := data.getD i 0

/-- `Lexer::substr`. -/
def substrBytes (data : List Nat) (start stop : Nat) : List Nat :=
  (data.take stop).drop start

/-- Rust `char::is_alphabetic` on a byte cast to `char` (Latin-1 range):
ASCII letters plus `ª µ º À-Ö Ø-ö ø-ÿ`. -/
def isAlphabeticByte (b : Nat) : Bool :=
  (65 ≤ b && b ≤ 90) || (97 ≤ b && b ≤ 122) || b = 170 || b = 181 || b = 186 ||
  (192 ≤ b && b ≤ 214) || (216 ≤ b && b ≤ 246) || (248 ≤ b && b ≤ 255)

/-- Rust `char::is_alphanumeric` on a byte cast to `char`: alphabetic
plus the decimal digits and the Latin-1 numerics `² ³ ¹ ¼ ½ ¾`. -/
def isAlphanumericByte (b : Nat) : Bool :=
  isAlphabeticByte b || (48 ≤ b && b ≤ 57) ||
  b = 178 || b = 179 || b = 185 || b = 188 || b = 189 || b = 190

/-- Whether a byte is an ASCII decimal digit (`b'0'..=b'9'`). -/
def isDigitByte (b : Nat) : Bool := 48 ≤ b && b ≤ 57

/-- A guarded byte scan: advance while in bounds and the byte satisfies
`p`.  The three `while` loops of `Lexer::next_normal` (whitespace skip,
digit run, alphanumeric run) are instances. -/
def runWhile (p : Nat → Bool) (data : List Nat) (i : Nat) : Nat :=
  if h : i < data.length then
    if p (byteAt data i) then runWhile p data (i + 1) else i
  else i
termination_by data.length - i

/-- Space or tab (`b' '`/`b'\t'`). -/
def isWsByte (b : Nat) : Bool := b = 32 || b = 9

/-- The `while … == b' ' || … == b'\t'` skip loop opening
`Lexer::next_normal`. -/
def skipWs (data : List Nat) (i : Nat) : Nat := runWhile isWsByte data i

theorem runWhile_ge (p : Nat → Bool) (data : List Nat) (i : Nat) :
    i ≤ runWhile p data i := by
  rw [runWhile]
  split
  · split
    · have := runWhile_ge p data (i + 1)
      omega
    · exact Nat.le_refl i
  · exact Nat.le_refl i
termination_by data.length - i

theorem runWhile_gt (p : Nat → Bool) (data : List Nat) (i : Nat)
    (hlt : i < data.length) (hp : p (byteAt data i) = true) :
    i + 1 ≤ runWhile p data i := by
  rw [runWhile, dif_pos hlt, if_pos hp]
  exact runWhile_ge p data (i + 1)

theorem skipWs_ge (data : List Nat) (i : Nat) : i ≤ skipWs data i :=
  runWhile_ge isWsByte data i

theorem lt_length_of_byteAt_ne (data : List Nat) (i : Nat)
    (h : byteAt data i ≠ 0) : i < data.length := by
  by_contra hc
  exact h (List.getD_eq_default data 0 (Nat.le_of_not_lt hc))

/-- The digit-consuming loops of the number branch of
`Lexer::next_normal`. -/
def digitRun (data : List Nat) (i : Nat) : Nat := runWhile isDigitByte data i

/-- The `is_alphanumeric` identifier loop of `Lexer::next_normal`. -/
def alnumRun (data : List Nat) (i : Nat) : Nat := runWhile isAlphanumericByte data i

/-- Decimal value of a digit string (the numeric content of
`str::parse`). -/
def digitsVal (bytes : List Nat) : Nat :=
  bytes.foldl (fun acc d => acc * 10 + (d - 48)) 0

/-- `str::parse::<u64>` on an all-digit, nonempty slice: the digits'
value when it fits in a `u64`, otherwise an overflow error (whose
`unwrap` is the caller's panic). -/
def parseU64 (bytes : List Nat) : Option Nat :=
  if digitsVal bytes ≤ 2 ^ 64 - 1 then some (digitsVal bytes) else Option.none

/-- The whitespace/newline counting loop of `Lexer::next_indent`,
returning `(indent_level, begin, index)`.  Indentation arithmetic is
`u16` (mod `2 ^ 16`). -/
def indentLoop (data : List Nat) (indent_level begin_ i : Nat) : Nat × Nat × Nat :=
  if h : i < data.length then
    match byteAt data i with
    | 10 => indentLoop data 0 i (i + 1)
    | 32 => indentLoop data ((indent_level + 1) % 2 ^ 16) begin_ (i + 1)
    | 9 => indentLoop data ((indent_level + (8 - indent_level % 8)) % 2 ^ 16) begin_ (i + 1)
    | _ => (indent_level, begin_, i)
  else (indent_level, begin_, i)
termination_by data.length - i

/-- Lines 318-321 of `src/lexer.rs`: after producing `ret_val`, switch
to the `End` state when the input is exhausted. -/
def Lexer.finishNormal (l : Lexer) (tok : Token) : Option (Token × Lexer) :=
  if l.index = l.data.length then some (tok, { l with state := LexerState.end_ })
  else some (tok, l)

/-- `Lexer::next_dedent` from `src/lexer.rs` (lines 188-206).  The
`indent_stack.last().unwrap()` calls and the `u32` underflow of
`self.index - 1` are modelled as `Option.none`; `normalCont` receives
the `self.next()` continuation of the `==` branch (which re-enters
`next_normal` after the state switch). -/
def Lexer.nextDedentWith (l : Lexer)
    (normalCont : Lexer → Option (Token × Lexer)) : Option (Token × Lexer) :=
  match l.indent_stack with
  | [] => Option.none
  | [prev_indent] =>
    if l.indent_level < prev_indent then Option.none
    else if l.indent_level = prev_indent then
      normalCont { l with state := LexerState.normal }
    else
      if l.index = 0 then Option.none
      else some (Token.unknownDedent (l.index - 1),
        { l with state := LexerState.normal, indent_stack := l.indent_level :: l.indent_stack })
  | prev_indent :: newTop :: rest2 =>
    if l.indent_level < prev_indent then
      if l.indent_level > newTop then
        if l.index = 0 then Option.none
        else some (Token.unknownDedent (l.index - 1),
          { l with state := LexerState.normal,
                   indent_stack := l.indent_level :: newTop :: rest2 })
      else
        if l.index = 0 then Option.none
        else some (Token.dedent (l.index - 1), { l with indent_stack := newTop :: rest2 })
    else if l.indent_level = prev_indent then
      normalCont { l with state := LexerState.normal }
    else
      if l.index = 0 then Option.none
      else some (Token.unknownDedent (l.index - 1),
        { l with state := LexerState.normal, indent_stack := l.indent_level :: l.indent_stack })

/-- `Lexer::next_normal` from `src/lexer.rs` (lines 208-352).  The
`loop` is the recursion on the `\n`-inside-parentheses `continue`; the
unguarded `self.cur()` after a `-` and the integer `parse().unwrap()`
are the `Option.none` outcomes.  Rust's local mutation of `self.index`
is written out: `skipWs l.data l.index` is the index after the
whitespace skip, `digitRun`/`alnumRun` applications are the index after
the corresponding scan loops, and the integer branch inlines
`parse::<u64>().unwrap()` (the digits' value when it fits in a `u64`,
a panic — `Option.none` — otherwise; cf. `parseU64`). -/
def Lexer.nextNormal (l : Lexer) : Option (Token × Lexer) :=
  if skipWs l.data l.index = l.data.length then
    some (Token.end_ (skipWs l.data l.index),
      { l with index := skipWs l.data l.index, state := LexerState.end_ })
  else if hb : byteAt l.data (skipWs l.data l.index) = 10 then
    if l.paren_count = 0 then
      some (Token.newline (skipWs l.data l.index),
        { l with index := skipWs l.data l.index + 1, state := LexerState.indentation })
    else
      Lexer.nextNormal { l with index := skipWs l.data l.index + 1 }
  else
    match byteAt l.data (skipWs l.data l.index) with
    | 40 => Lexer.finishNormal
        { l with index := skipWs l.data l.index + 1,
                 paren_count := (l.paren_count + 1) % 2 ^ 8 }
        (Token.lparen (skipWs l.data l.index))
    | 41 => Lexer.finishNormal
        { l with index := skipWs l.data l.index + 1,
                 paren_count := if l.paren_count ≠ 0 then l.paren_count - 1 else l.paren_count }
        (Token.rparen (skipWs l.data l.index))
    | 43 => Lexer.finishNormal { l with index := skipWs l.data l.index + 1 }
        (Token.plus (skipWs l.data l.index))
    | 45 =>
      if skipWs l.data l.index + 1 = l.data.length then Option.none
      else if byteAt l.data (skipWs l.data l.index + 1) = 62 then
        Lexer.finishNormal { l with index := skipWs l.data l.index + 2 }
          (Token.arrow (skipWs l.data l.index))
      else
        Lexer.finishNormal { l with index := skipWs l.data l.index + 1 }
          (Token.dash (skipWs l.data l.index))
    | 44 => Lexer.finishNormal { l with index := skipWs l.data l.index + 1 }
        (Token.comma (skipWs l.data l.index))
    | 61 => Lexer.finishNormal { l with index := skipWs l.data l.index + 1 }
        (Token.equal (skipWs l.data l.index))
    | 58 => Lexer.finishNormal { l with index := skipWs l.data l.index + 1 }
        (Token.colon (skipWs l.data l.index))
    | 46 => Lexer.finishNormal { l with index := skipWs l.data l.index + 1 }
        (Token.dot (skipWs l.data l.index))
    | c =>
      if isDigitByte c then
        if digitRun l.data (skipWs l.data l.index) < l.data.length
            ∧ byteAt l.data (digitRun l.data (skipWs l.data l.index)) = 46 then
          if digitRun l.data (digitRun l.data (skipWs l.data l.index) + 1) = 0 then Option.none
          else Lexer.finishNormal
            { l with index := digitRun l.data (digitRun l.data (skipWs l.data l.index) + 1) }
            (Token.floatingPoint
              (substrBytes l.data (skipWs l.data l.index)
                (digitRun l.data (digitRun l.data (skipWs l.data l.index) + 1)))
              (skipWs l.data l.index)
              (digitRun l.data (digitRun l.data (skipWs l.data l.index) + 1)))
        else
          if digitsVal (substrBytes l.data (skipWs l.data l.index)
              (digitRun l.data (skipWs l.data l.index))) ≤ 2 ^ 64 - 1 then
            if digitRun l.data (skipWs l.data l.index) = 0 then Option.none
            else Lexer.finishNormal
              { l with index := digitRun l.data (skipWs l.data l.index) }
              (Token.integer
                (digitsVal (substrBytes l.data (skipWs l.data l.index)
                  (digitRun l.data (skipWs l.data l.index))))
                (skipWs l.data l.index)
                (digitRun l.data (skipWs l.data l.index)))
          else Option.none
      else if isAlphabeticByte c then
        if substrBytes l.data (skipWs l.data l.index) (alnumRun l.data (skipWs l.data l.index))
            = [112, 97, 115, 115] then
          some (Token.pass (skipWs l.data l.index),
            { l with index := alnumRun l.data (skipWs l.data l.index) })
        else if substrBytes l.data (skipWs l.data l.index) (alnumRun l.data (skipWs l.data l.index))
            = [100, 101, 102] then
          some (Token.def_ (skipWs l.data l.index),
            { l with index := alnumRun l.data (skipWs l.data l.index) })
        else if substrBytes l.data (skipWs l.data l.index) (alnumRun l.data (skipWs l.data l.index))
            = [114, 101, 116, 117, 114, 110] then
          some (Token.return_ (skipWs l.data l.index),
            { l with index := alnumRun l.data (skipWs l.data l.index) })
        else if substrBytes l.data (skipWs l.data l.index) (alnumRun l.data (skipWs l.data l.index))
            = [105, 102] then
          some (Token.if_ (skipWs l.data l.index),
            { l with index := alnumRun l.data (skipWs l.data l.index) })
        else if substrBytes l.data (skipWs l.data l.index) (alnumRun l.data (skipWs l.data l.index))
            = [101, 108, 115, 101] then
          some (Token.else_ (skipWs l.data l.index),
            { l with index := alnumRun l.data (skipWs l.data l.index) })
        else if substrBytes l.data (skipWs l.data l.index) (alnumRun l.data (skipWs l.data l.index))
            = [101, 108, 105, 102] then
          some (Token.elif (skipWs l.data l.index),
            { l with index := alnumRun l.data (skipWs l.data l.index) })
        else
          match lookupA l.id_map (substrBytes l.data (skipWs l.data l.index)
              (alnumRun l.data (skipWs l.data l.index))) with
          | some id =>
            some (Token.ident id
                (newr (skipWs l.data l.index) (alnumRun l.data (skipWs l.data l.index))),
              { l with index := alnumRun l.data (skipWs l.data l.index) })
          | Option.none =>
            some (Token.ident l.id_list.length
                (newr (skipWs l.data l.index) (alnumRun l.data (skipWs l.data l.index))),
              { l with index := alnumRun l.data (skipWs l.data l.index),
                       id_map := l.id_map ++
                         [(substrBytes l.data (skipWs l.data l.index)
                             (alnumRun l.data (skipWs l.data l.index)), l.id_list.length)],
                       id_list := l.id_list ++
                         [substrBytes l.data (skipWs l.data l.index)
                             (alnumRun l.data (skipWs l.data l.index))] })
      else
        Lexer.finishNormal { l with index := skipWs l.data l.index + 1 }
          (Token.unknown (skipWs l.data l.index) (skipWs l.data l.index + 1))
termination_by l.data.length - l.index
decreasing_by
  simp_wf
  have h1 := skipWs_ge l.data l.index
  have h2 : skipWs l.data l.index < l.data.length := by
    apply lt_length_of_byteAt_ne
    rw [hb]
    exact Nat.succ_ne_zero 9
  omega

/-- `Lexer::next_indent` from `src/lexer.rs` (lines 143-186). -/
def Lexer.nextIndent (l : Lexer) : Option (Token × Lexer) :=
  match l.indent_stack with
  | [] => Option.none
  | prev_indent :: _ =>
    if (indentLoop l.data 0 l.index l.index).1 < prev_indent then
      Lexer.nextDedentWith
        { l with index := (indentLoop l.data 0 l.index l.index).2.2,
                 state := LexerState.dedent,
                 indent_level := (indentLoop l.data 0 l.index l.index).1 }
        Lexer.nextNormal
    else if (indentLoop l.data 0 l.index l.index).2.2 = l.data.length then
      some (Token.end_ (indentLoop l.data 0 l.index l.index).2.2,
        { l with index := (indentLoop l.data 0 l.index l.index).2.2,
                 state := LexerState.end_ })
    else if (indentLoop l.data 0 l.index l.index).1 = prev_indent then
      Lexer.nextNormal
        { l with index := (indentLoop l.data 0 l.index l.index).2.2,
                 state := LexerState.normal }
    else
      some (Token.indent (indentLoop l.data 0 l.index l.index).2.1
          (indentLoop l.data 0 l.index l.index).2.2,
        { l with index := (indentLoop l.data 0 l.index l.index).2.2,
                 state := LexerState.normal,
                 indent_stack := (indentLoop l.data 0 l.index l.index).1 :: l.indent_stack })

/-- `Lexer::next` from `src/lexer.rs` (lines 118-132). -/
def Lexer.next (l : Lexer) : Option (Token × Lexer) :=
  match l.state with
  | LexerState.dedent => Lexer.nextDedentWith l Lexer.nextNormal
  | LexerState.normal => Lexer.nextNormal l
  | LexerState.indentation => Lexer.nextIndent l
  | LexerState.end_ =>
    match l.indent_stack with
    | _ :: y :: rest => some (Token.dedent l.index, { l with indent_stack := y :: rest })
    | _ => some (Token.end_ l.index, l)

/-- Run the lexer `n` steps, collecting tokens; `Option.none` if any
step panics. -/
def lexN : Nat → Lexer → Option (List Token)
  | 0, _ => some []
  | n + 1, l => do
    let (t, l') ← l.next
    let rest ← lexN n l'
    pure (t :: rest)

/-- Byte encoding of an ASCII string. -/
def asciiBytes (s : String) : List Nat := s.data.map Char.toNat

/-! ## Untyped syntax tree (`src/syntax_tree.rs`) -/

/-- `Expr` from `src/syntax_tree.rs`.  Integer literals carry the `u64`
payload the lexer produced. -/
inductive Expr : Type where
  | int (value : Nat) (view : CRange)
  | float (value : F64Lit) (view : CRange)
  | none (view : CRange)
  | true (view : CRange)
  | false (view : CRange)
  | ident (id : Nat) (view : CRange)
  | call (callee : Nat) (callee_view : CRange) (arguments : List Expr)
      (arguments_view : CRange)
  | dotAccess (parent : Expr) (member_id : Nat) (member_view : CRange)
  | tup (values : List Expr) (view : CRange)
  | minus (left right : Expr) (view : CRange)
  | add (left right : Expr) (view : CRange)
  deriving Repr

/-- `Expr::view` from `src/syntax_tree.rs`. -/
def Expr.view : Expr → CRange
  | .int _ v => v
  | .float _ v => v
  | .ident _ v => v
  | .none v => v
  | .true v => v
  | .false v => v
  | .call _ callee_view _ arguments_view => joinr callee_view arguments_view
  | .dotAccess parent _ member_view => joinr parent.view member_view
  | .add _ _ v => v
  | .minus _ _ v => v
  | .tup _ v => v

/-- `FuncParam` from `src/syntax_tree.rs`. -/
structure FuncParam where
  name : Nat
  type_name : Nat
  view : CRange
  deriving DecidableEq, Repr

/-- `Stmt` from `src/syntax_tree.rs`.  Keyword-colliding variant names
get the prefixes/underscores used for `TStmt`; an `IfBranch` is the
pair of its `condition` and `block` fields. -/
inductive Stmt : Type where
  | pass
  | expr (e : Expr)
  | declare (name : Nat) (name_view : CRange) (type_name : Nat)
      (type_view : CRange) (value : Expr)
  | function (name : Nat) (name_view : CRange) (return_type_view : CRange)
      (arguments : List FuncParam) (return_type : Option Nat) (stmts : List Stmt)
  | assign (to_ : Nat) (to_view : CRange) (value : Expr)
  | assignMember (to_ : Expr) (to_member : Nat) (value : Expr)
  | sif (conditioned_blocks : List (Expr × List Stmt)) (else_branch : List Stmt)
  | swhile (condition : Expr) (block : List Stmt) (else_branch : List Stmt)
  | sbreak
  | sreturn (ret_val : Expr)
  deriving Repr

/-! ## Type checker (`src/type_checker.rs`) -/

/-- A type-checker failure: either an ordinary diagnostic (`Error` in
`src/util.rs`) or a Rust `panic!`/`unwrap` abort. -/
inductive Failure : Type where
  | diag (location : CRange) (message : String)
  | panic (message : String)
  deriving DecidableEq, Repr

/-- `unwrap_err` from `src/util.rs`. -/
def unwrapErr {α : Type} (value : Option α) (location : CRange)
    (message : String) : Except Failure α :=
  match value with
  | some v => Except.ok v
  | Option.none => Except.error (Failure.diag location message)

/-- `SymbolInfo` from `src/type_checker.rs` (lines 8-21).  The Rust
variant `Variable` is rendered `var`. -/
inductive SymbolInfo : Type where
  | function (uid : Nat) (return_type : Ty) (arguments : List Ty) (view : CRange)
  | var (uid : Nat) (type_ : Ty) (view : CRange)
  deriving DecidableEq, Repr

/-- `SymbolInfo::get_type`. -/
def SymbolInfo.get_type : SymbolInfo → Ty
  | .function _ return_type arguments _ => Ty.function return_type arguments
  | .var _ type_ _ => type_

/-- `SymbolInfo::view`. -/
def SymbolInfo.view : SymbolInfo → CRange
  | .function _ _ _ v => v
  | .var _ _ v => v

/-- `SymbolInfo::uid`. -/
def SymbolInfo.uid : SymbolInfo → Nat
  | .function u _ _ _ => u
  | .var u _ _ => u

/-- `SymbolTable` from `src/type_checker.rs`: a symbol map plus an
optional parent.  The Rust `NonNull` parent pointer becomes a snapshot
of the parent table at child-creation time (the parent is never
mutated while a child is alive, so the snapshot stays accurate). -/
inductive SymbolTable : Type where
  | mk (symbols : List (Nat × SymbolInfo)) (parent : Option SymbolTable)

/-- The symbol map of a table. -/
def SymbolTable.symbols : SymbolTable → List (Nat × SymbolInfo)
  | .mk s _ => s

/-- The parent snapshot of a table. -/
def SymbolTable.parent : SymbolTable → Option SymbolTable
  | .mk _ p => p

/-- `symbols_` from `src/type_checker.rs` (lines 54-59): a fresh child
scope. -/
def symbols_ (parent : SymbolTable) : SymbolTable :=
  SymbolTable.mk [] (some parent)

/-- `SymbolTable::declare` (lines 103-109). -/
def SymbolTable.declare (t : SymbolTable) (symbol : Nat) (info : SymbolInfo) :
    Except Failure SymbolTable :=
  if (lookupA t.symbols symbol).isSome then
    Except.error (Failure.diag info.view "name already exists in scope")
  else Except.ok (SymbolTable.mk (t.symbols ++ [(symbol, info)]) t.parent)

/-- `SymbolTable::search` (via `search_unsafe`, lines 111-129). -/
def SymbolTable.search : SymbolTable → Nat → Option SymbolInfo
  | .mk symbols parent, s =>
    match lookupA symbols s with
    | some info => some info
    | Option.none =>
      match parent with
      | some p => p.search s
      | Option.none => Option.none

/-- The `for … { declare }` loops of `fold_into_parent` and
`merge_parallel_tables`. -/
def declareAll (t : SymbolTable) : List (Nat × SymbolInfo) → Except Failure SymbolTable
  | [] => Except.ok t
  | (id, info) :: rest => do
    let t ← t.declare id info
    declareAll t rest

/-- `SymbolTable::fold_into_parent` (lines 74-79), returning the updated
parent; the `parent.unwrap()` on the root table is a panic. -/
def SymbolTable.fold_into_parent (t : SymbolTable) : Except Failure SymbolTable :=
  match t.parent with
  | some p => declareAll p t.symbols
  | Option.none => Except.error (Failure.panic "fold_into_parent: missing parent")

/-- `HashMap::remove`, returning the removed value and the remainder. -/
def removeA {β : Type} : List (Nat × β) → Nat → Option β × List (Nat × β)
  | [], _ => (Option.none, [])
  | (k, v) :: rest, key =>
    if k = key then (some v, rest)
    else
      let r := removeA rest key
      (r.1, (k, v) :: r.2)

/-- The left-table loop of `merge_parallel_tables` (lines 87-94). -/
def mergeLeftLoop (result : SymbolTable) :
    List (Nat × SymbolInfo) → List (Nat × SymbolInfo) →
    Except Failure (SymbolTable × List (Nat × SymbolInfo))
  | [], rsyms => Except.ok (result, rsyms)
  | (id, info) :: rest, rsyms =>
    match removeA rsyms id with
    | (some rinfo, rsyms') =>
      if info.get_type ≠ rinfo.get_type then
        Except.error (Failure.diag info.view
          "variable type differs from other variable type in parallel scope with same name")
      else do
        let result ← result.declare id info
        mergeLeftLoop result rest rsyms'
    | (Option.none, rsyms') => do
      let result ← result.declare id info
      mergeLeftLoop result rest rsyms'

/-- `SymbolTable::merge_parallel_tables` (lines 81-101).  The Rust
pointer-equality half of the `assert!` always holds at its call sites
(all merged tables are children of the same scope); the `!= None` half
is modelled. -/
def merge_parallel_tables (left right : SymbolTable) : Except Failure SymbolTable :=
  match left.parent with
  | Option.none => Except.error (Failure.panic "assertion failed")
  | some p => do
    let (result, rightRem) ← mergeLeftLoop (symbols_ p) left.symbols right.symbols
    declareAll result rightRem

/-- `PRINT_IDX` from `src/builtins.rs`. -/
def PRINT_IDX : Nat := 0
/-- `FLOAT_IDX` from `src/builtins.rs`. -/
def FLOAT_IDX : Nat := 1
/-- `INT_IDX` from `src/builtins.rs`. -/
def INT_IDX : Nat := 2
/-- `BOOL_IDX` from `src/builtins.rs`. -/
def BOOL_IDX : Nat := 3
/-- `UID_BEGIN` from `src/builtins.rs`. -/
def UID_BEGIN : Nat := 10

/-- `builtin_types` from `src/builtins.rs`. -/
def builtin_types : List (Nat × Ty) :=
  [(FLOAT_IDX, Ty.float), (INT_IDX, Ty.int), (BOOL_IDX, Ty.bool)]

/-- `builtin_symbols` from `src/builtins.rs`: `print` is a function of
one `Any` argument returning `None`, with uid 1. -/
def builtin_symbols : List (Nat × SymbolInfo) :=
  [(PRINT_IDX, SymbolInfo.function 1 Ty.none [Ty.any] (newr 0 0))]

/-- `builtin_definitions` from `src/builtins.rs`: the pre-canned body of
`print` (uid 1, one argument with uid 2) performing the
`PRINT_PRIMITIVE` ecall. -/
def builtin_definitions : List TStmt :=
  [TStmt.function 1 [2] []
    [TStmt.expr (TExpr.ecall [TExpr.int 0, TExpr.ident 2 Ty.any])]]

/-- The `*value as i64` cast in `TypeChecker::check_expr` (line 474):
two's-complement reinterpretation of a `u64`. -/
def u64_as_i64 (v : Nat) : Int :=
  if v % 2 ^ 64 < 2 ^ 63 then ((v % 2 ^ 64 : Nat) : Int)
  else ((v % 2 ^ 64 : Nat) : Int) - 2 ^ 64

mutual

/-- `TypeChecker::check_expr` from `src/type_checker.rs` (lines
467-576).  The `panic!("we don't have function objects yet")` on a
function-valued identifier is a `Failure.panic`. -/
def check_expr (sym : SymbolTable) : Expr → Except Failure TExpr
  | .int value _ => Except.ok (TExpr.int (u64_as_i64 value))
  | .float value _ => Except.ok (TExpr.float value)
  | .none _ => Except.ok TExpr.none
  | .false _ => Except.ok (TExpr.bool false)
  | .true _ => Except.ok (TExpr.bool true)
  | .ident id view =>
    match sym.search id with
    | Option.none => Except.error (Failure.diag view "referenced name doesn't exist")
    | some (.var uid type_ _) => Except.ok (TExpr.ident uid type_)
    | some (.function _ _ _ _) =>
      Except.error (Failure.panic "we don't have function objects yet")
  | .minus left right view => do
    let l ← check_expr sym left
    let r ← check_expr sym right
    if l.type_ = r.type_ then Except.ok (TExpr.minus l r l.type_)
    else Except.error (Failure.diag view "incompatible types for addition")
  | .add left right view => do
    let l ← check_expr sym left
    let r ← check_expr sym right
    if l.type_ = r.type_ then Except.ok (TExpr.add l r l.type_)
    else Except.error (Failure.diag view "incompatible types for addition")
  | .call callee callee_view arguments arguments_view =>
    match sym.search callee with
    | Option.none =>
      Except.error (Failure.diag callee_view "name being called doesn't exist")
    | some (.function uid return_type args_formal _) =>
      if args_formal.length ≠ arguments.length then
        Except.error (Failure.diag arguments_view "wrong number of arguments")
      else do
        let args ← check_call_args sym args_formal arguments
        Except.ok (TExpr.call uid args return_type)
    | some (.var _ _ _) =>
      Except.error (Failure.diag (joinr callee_view arguments_view) "callee not a function")
  | .dotAccess parent member_id member_view =>
    Except.error (Failure.diag (joinr parent.view member_view) "not implemented yet")
  | .tup _ view => Except.error (Failure.diag view "not implemented yet")

/-- The `zip(args_formal, arguments)` loop of the `Call` case: check
each actual, require assignment compatibility with its formal. -/
def check_call_args (sym : SymbolTable) : List Ty → List Expr →
    Except Failure (List TExpr)
  | formal :: fs, arg :: rest => do
    let view := arg.view
    let targ ← check_expr sym arg
    if ¬ is_assignment_compatible formal targ.type_ then
      Except.error (Failure.diag view "argument is wrong type")
    else do
      let targs ← check_call_args sym fs rest
      Except.ok (targ :: targs)
  | _, _ => Except.ok []

end

/-- The argument-type resolution loop of `add_function_symbols`
(lines 214-223). -/
def resolveArgTypes (types : List (Nat × Ty)) : List FuncParam →
    Except Failure (List Ty)
  | [] => Except.ok []
  | arg :: rest => do
    let t ← unwrapErr (lookupA types arg.type_name) arg.view "type doesn't exist"
    let ts ← resolveArgTypes types rest
    Except.ok (t :: ts)

/-- `TypeChecker::add_function_symbols` from `src/type_checker.rs`
(lines 186-240): pre-scan a statement list, declaring every nested
function name.  `uid` threads the checker's `next_uid_` counter. -/
def add_function_symbols (types : List (Nat × Ty)) (uid : Nat)
    (sym : SymbolTable) : List Stmt → Except Failure (Nat × SymbolTable)
  | [] => Except.ok (uid, sym)
  | .function name name_view return_type_view arguments return_type _ :: rest => do
    let decl_return_type ←
      match return_type with
      | some rt => unwrapErr (lookupA types rt) return_type_view "type doesn't exist"
      | Option.none => Except.ok Ty.none
    let arg_types ← resolveArgTypes types arguments
    let sym ← sym.declare name
      (SymbolInfo.function uid decl_return_type arg_types name_view)
    add_function_symbols types (uid + 1) sym rest
  | _ :: rest => add_function_symbols types uid sym rest

/-- The parameter-declaring loop of the `Function` case of
`check_stmts` (lines 356-370). -/
def declareParams (uid : Nat) (fsym : SymbolTable) :
    List (FuncParam × Ty) → Except Failure (Nat × SymbolTable × List Nat)
  | [] => Except.ok (uid, fsym, [])
  | (arg, ty) :: rest => do
    let fsym ← fsym.declare arg.name (SymbolInfo.var uid ty arg.view)
    let (uid', fsym, uids) ← declareParams (uid + 1) fsym rest
    Except.ok (uid', fsym, uid :: uids)

/-- The quadratic merge loop of the `If` case (lines 440-444), after
reversal: the `Vec` top is merged leftwards. -/
def mergeLoop (acc : SymbolTable) : List SymbolTable → Except Failure SymbolTable
  | [] => Except.ok acc
  | right :: rest => do
    let m ← merge_parallel_tables acc right
    mergeLoop m rest

/-- `while sym_tables.len() > 1 { merge … }; sym_tables.pop().unwrap()`:
tables are pushed in branch order with the `else` table last. -/
def mergeStack (tables : List SymbolTable) : Except Failure SymbolTable :=
  match tables.reverse with
  | [] => Except.error (Failure.panic "Option::unwrap on None")
  | top :: rest => mergeLoop top rest

/-- The `for (condition, block) in ifstmts.into_iter().rev()` wrap-up of
the `If` case (lines 448-457), producing the nested `TStmt::If`. -/
def buildIf : List (TExpr × List TStmt) → List TStmt → List TStmt
  | [], acc => acc
  | (c, b) :: rest, acc => [TStmt.sif c b (buildIf rest acc)]

mutual

/-- `TypeChecker::check_stmts` from `src/type_checker.rs` (lines
242-465): pre-scan function names, then visit the statements.  `uid`
threads `next_uid_`; the result is the updated counter, the scope's
final symbol table, and the emitted `TStmt`s. -/
def check_stmts (types : List (Nat × Ty)) (uid : Nat) (in_loop : Bool)
    (stmts : List Stmt) (sym : SymbolTable) (return_type : Option Ty) :
    Except Failure (Nat × SymbolTable × List TStmt) := do
  let (uid, sym) ← add_function_symbols types uid sym stmts
  check_stmts_loop types uid in_loop stmts sym return_type
termination_by (sizeOf stmts, 1)

/-- The `for stmt in stmts` body of `check_stmts`. -/
def check_stmts_loop (types : List (Nat × Ty)) (uid : Nat) (in_loop : Bool)
    (stmts : List Stmt) (sym : SymbolTable) (return_type : Option Ty) :
    Except Failure (Nat × SymbolTable × List TStmt) :=
  match stmts with
  | [] => Except.ok (uid, sym, [])
  | Stmt.pass :: rest => check_stmts_loop types uid in_loop rest sym return_type
  | Stmt.expr e :: rest => do
    let te ← check_expr sym e
    let (uid', sym', ts) ← check_stmts_loop types uid in_loop rest sym return_type
    Except.ok (uid', sym', TStmt.expr te :: ts)
  | Stmt.sreturn ret_val :: rest => do
    let rt ← unwrapErr return_type ret_val.view "can't return a value from this context"
    let ret_val_view := ret_val.view
    let tret ← check_expr sym ret_val
    if ¬ is_assignment_compatible rt tret.type_ then
      Except.error (Failure.diag ret_val_view "returning the wrong type")
    else do
      let (uid', sym', ts) ← check_stmts_loop types uid in_loop rest sym return_type
      Except.ok (uid', sym', TStmt.sreturn tret :: ts)
  | Stmt.declare name name_view type_name type_view value :: rest => do
    let decl_type ← unwrapErr (lookupA types type_name) type_view "type doesn't exist"
    let u := uid
    let sym ← sym.declare name (SymbolInfo.var u decl_type name_view)
    let te ← check_expr sym value
    if ¬ is_assignment_compatible decl_type te.type_ then
      Except.error (Failure.diag value.view "value type doesn't match variable type")
    else do
      let (uid', sym', ts) ← check_stmts_loop types (u + 1) in_loop rest sym return_type
      Except.ok (uid', sym', TStmt.assign u te :: ts)
  | Stmt.assign to_ to_view value :: rest => do
    let var_info ← unwrapErr (sym.search to_) to_view "name doesn't exist"
    match var_info with
    | SymbolInfo.var to_uid to_type _ => do
      let te ← check_expr sym value
      if ¬ is_assignment_compatible to_type te.type_ then
        Except.error (Failure.diag value.view "value type doesn't match variable type")
      else do
        let (uid', sym', ts) ← check_stmts_loop types uid in_loop rest sym return_type
        Except.ok (uid', sym', TStmt.assign to_uid te :: ts)
    | SymbolInfo.function _ _ _ _ =>
      Except.error (Failure.diag to_view "name being assigned to is a function")
  | Stmt.function name _ _ arguments _ body :: rest =>
    match sym.search name with
    | Option.none => Except.error (Failure.panic "Option::unwrap on None")
    | some (SymbolInfo.var _ _ _) => Except.error (Failure.panic "explicit panic")
    | some (SymbolInfo.function fuid rtype arg_types _) => do
      let (uid, fsym, argument_uids) ← declareParams uid (symbols_ sym) (arguments.zip arg_types)
      let (uid, fsym2, fblock) ← check_stmts types uid in_loop body (symbols_ fsym) (some rtype)
      let fdecls := fsym2.symbols.map fun p => Declaration.mk p.2.uid
      let (uid', sym', ts) ← check_stmts_loop types uid in_loop rest sym return_type
      Except.ok (uid', sym', TStmt.function fuid argument_uids fdecls fblock :: ts)
  | Stmt.swhile condition block else_branch :: rest => do
    let tcond ← check_expr sym condition
    let (uid, while_sym, tblock) ← check_stmts types uid true block (symbols_ sym) return_type
    let sym ← while_sym.fold_into_parent
    let (uid, else_sym, telse) ←
      check_stmts types uid in_loop else_branch (symbols_ sym) return_type
    let sym ← else_sym.fold_into_parent
    let (uid', sym', ts) ← check_stmts_loop types uid in_loop rest sym return_type
    Except.ok (uid', sym', TStmt.swhile tcond tblock telse :: ts)
  | Stmt.sbreak :: rest => do
    let (uid', sym', ts) ← check_stmts_loop types uid in_loop rest sym return_type
    Except.ok (uid', sym', TStmt.sbreak :: ts)
  | Stmt.sif conditioned_blocks else_branch :: rest => do
    let (uid, sym_tables, ifstmts) ←
      check_if_branches types uid in_loop sym return_type conditioned_blocks
    let (uid, else_sym, telse) ←
      check_stmts types uid in_loop else_branch (symbols_ sym) return_type
    let merged ← mergeStack (sym_tables ++ [else_sym])
    let sym ← merged.fold_into_parent
    match buildIf ifstmts telse with
    | x :: _ => do
      let (uid', sym', ts) ← check_stmts_loop types uid in_loop rest sym return_type
      Except.ok (uid', sym', x :: ts)
    | [] => Except.error (Failure.panic "index out of bounds")
  | Stmt.assignMember _ _ _ :: _ => Except.error (Failure.panic "explicit panic")
termination_by (sizeOf stmts, 0)

/-- The `for conditioned_block in conditioned_blocks` loop of the `If`
case (lines 424-432). -/
def check_if_branches (types : List (Nat × Ty)) (uid : Nat) (in_loop : Bool)
    (sym : SymbolTable) (return_type : Option Ty) :
    List (Expr × List Stmt) →
    Except Failure (Nat × List SymbolTable × List (TExpr × List TStmt))
  | [] => Except.ok (uid, [], [])
  | (condition, block) :: rest => do
    let tcond ← check_expr sym condition
    let (uid, ifsym, tblock) ← check_stmts types uid in_loop block (symbols_ sym) return_type
    let (uid', tables, stmts) ← check_if_branches types uid in_loop sym return_type rest
    Except.ok (uid', ifsym :: tables, (tcond, tblock) :: stmts)
termination_by branches => (sizeOf branches, 0)

end

/-- `TypeChecker::check_program` from `src/type_checker.rs` (lines
161-184). -/
def check_program (program : List Stmt) : Except Failure TProgram := do
  let types := builtin_types
  let sym := SymbolTable.mk builtin_symbols Option.none
  let (_, sym', tstmts) ← check_stmts types UID_BEGIN false program sym Option.none
  let declarations := sym'.symbols.map fun p => Declaration.mk p.2.uid
  Except.ok ⟨declarations, tstmts ++ builtin_definitions⟩

/-! ## Claim theorems -/

/-- C4: `is_assignment_compatible(target, value)` returns true when
`value` is `None`, or `target` is `Any`, or `target` equals `value`
structurally, and returns false whenever `target` is `None` and
`value` is not `None`. -/
theorem claim_C4 (to_ value : Ty) :
    ((value = Ty.none ∨ to_ = Ty.any ∨ to_ = value) →
      is_assignment_compatible to_ value = true)
    ∧ (to_ = Ty.none → value ≠ Ty.none →
      is_assignment_compatible to_ value = false) := by
  constructor
  · rintro (rfl | rfl | rfl)
    · cases to_ <;> rfl
    · cases value <;> rfl
    · cases to_ <;> simp [is_assignment_compatible]
  · rintro rfl hv
    cases value <;> first
      | exact absurd rfl hv
      | rfl

/-- Witness for C4 at concrete types: `Any ← Int` is compatible and
`None ← Int` is not. -/
theorem claim_C4_witness :
    is_assignment_compatible Ty.any Ty.int = true
    ∧ is_assignment_compatible Ty.none Ty.int = false :=
  ⟨(claim_C4 Ty.any Ty.int).1 (Or.inr (Or.inl rfl)),
   (claim_C4 Ty.none Ty.int).2 rfl (by decide)⟩

/-- C5: the VM truthiness test `eval_bool` returns true on the
`NONE_VALUE` sentinel; on a heap reference with an Int or Bool header
it returns the data word's nonzero-ness; on a Float header it tests
the stored `f64` against `0.0` under IEEE-754 equality (only the two
signed-zero bit patterns are equal to `0.0`); any other header is a
runtime panic (`Option.none`). -/
theorem claim_C5 (heap : List Nat) (v w : Nat) :
    eval_bool heap NONE_VALUE = some true
    ∧ (v ≠ NONE_VALUE →
        (get_obj_header heap v = some INT_HEADER ∨
          get_obj_header heap v = some BOOL_HEADER) →
        heap.get? v = some w → eval_bool heap v = some (decide (w ≠ 0)))
    ∧ (v ≠ NONE_VALUE → get_obj_header heap v = some FLOAT_HEADER →
        heap.get? v = some w → eval_bool heap v = some (! f64_bits_eq_zero w))
    ∧ (∀ h, v ≠ NONE_VALUE → get_obj_header heap v = some h →
        h ≠ INT_HEADER → h ≠ BOOL_HEADER → h ≠ FLOAT_HEADER →
        eval_bool heap v = Option.none) := by
  refine ⟨by simp [eval_bool], ?_, ?_, ?_⟩
  · intro hv hh hw
    rw [List.get?_eq_getElem?] at hw
    rcases hh with hh | hh <;>
      simp +decide [eval_bool, hv, hh, hw, INT_HEADER, BOOL_HEADER, FLOAT_HEADER]
  · intro hv hh hw
    rw [List.get?_eq_getElem?] at hw
    simp +decide [eval_bool, hv, hh, hw, INT_HEADER, BOOL_HEADER, FLOAT_HEADER]
  · intro h hv hh h1 h2 h3
    simp [eval_bool, hv, hh, h1, h2, h3]

/-- Witness for C5 on a concrete heap `[header, word]`: an Int object
holding 5 is truthy, and per the theorem's first conjunct the sentinel
is truthy. -/
theorem claim_C5_witness :
    eval_bool [1, 5] 1 = some true ∧ eval_bool [1, 5] NONE_VALUE = some true := by
  have h := claim_C5 [1, 5] 1 5
  exact ⟨by simpa using h.2.1 (by decide) (Or.inl (by decide)) (by decide), h.1⟩

unseal check_stmts check_stmts_loop check_if_branches in
/-- C9: `check_program` panics (instead of returning an `Error` record)
on a well-formed parsed program that uses the bare function name
`print` as an expression: `check_expr` hits
`panic!("we don't have function objects yet")`. -/
theorem claim_C9 :
    check_program [Stmt.expr (Expr.ident PRINT_IDX (newr 0 5))] =
      Except.error (Failure.panic "we don't have function objects yet") := by rfl

unseal runWhile indentLoop Lexer.nextNormal in
/-- C1 (failing-input evaluation): the lexer turns each of `while`,
`break`, `None`, `True`, `False` into an `Ident` token (interned as
the first fresh user id, 5) — not a keyword token; its `Token` type
has no variants for them.  The six keywords it does recognise are
`pass`, `def`, `return`, `if`, `else`, `elif`. -/
theorem claim_C1 :
    lexN 1 (Lexer.new (asciiBytes "while")) = some [Token.ident 5 (newr 0 5)]
    ∧ lexN 1 (Lexer.new (asciiBytes "break")) = some [Token.ident 5 (newr 0 5)]
    ∧ lexN 1 (Lexer.new (asciiBytes "None")) = some [Token.ident 5 (newr 0 4)]
    ∧ lexN 1 (Lexer.new (asciiBytes "True")) = some [Token.ident 5 (newr 0 4)]
    ∧ lexN 1 (Lexer.new (asciiBytes "False")) = some [Token.ident 5 (newr 0 5)]
    ∧ lexN 1 (Lexer.new (asciiBytes "pass")) = some [Token.pass 0]
    ∧ lexN 1 (Lexer.new (asciiBytes "def")) = some [Token.def_ 0]
    ∧ lexN 1 (Lexer.new (asciiBytes "return")) = some [Token.return_ 0]
    ∧ lexN 1 (Lexer.new (asciiBytes "if")) = some [Token.if_ 0]
    ∧ lexN 1 (Lexer.new (asciiBytes "else")) = some [Token.else_ 0]
    ∧ lexN 1 (Lexer.new (asciiBytes "elif")) = some [Token.elif 0] :=
  ⟨rfl, rfl, rfl, rfl, rfl, rfl, rfl, rfl, rfl, rfl, rfl⟩

/-- C10 (general half): the checker maps a `u64` literal to its
two's-complement `i64` reinterpretation, so any literal in
`[2^63, 2^64)` becomes the negative `i64` with the same 64-bit
pattern rather than being rejected. -/
theorem claim_C10 (v : Nat) (view : CRange) (sym : SymbolTable)
    (h1 : 2 ^ 63 ≤ v) (h2 : v < 2 ^ 64) :
    check_expr sym (Expr.int v view) = Except.ok (TExpr.int ((v : Int) - 2 ^ 64))
    ∧ (v : Int) - 2 ^ 64 < 0
    ∧ ((v : Int) - 2 ^ 64) % 2 ^ 64 = (v : Int) % 2 ^ 64 := by
  refine ⟨?_, by omega, by omega⟩
  have hval : u64_as_i64 v = (v : Int) - 2 ^ 64 := by
    unfold u64_as_i64
    split <;> omega
  simp [check_expr, hval]

unseal runWhile indentLoop Lexer.nextNormal in
/-- Witness for C10, doubling as the concrete lexer half of the claim:
the 20-digit literal `9223372036854775808` (`2^63`, one past
`i64::MAX`) is stored by the lexer as the `u64` value `2^63`, and the
checker turns it into the negative `i64` `-2^63`. -/
theorem claim_C10_witness :
    lexN 1 (Lexer.new (asciiBytes "9223372036854775808"))
      = some [Token.integer (2 ^ 63) 0 19]
    ∧ check_expr (SymbolTable.mk [] Option.none) (Expr.int (2 ^ 63) (newr 0 19))
      = Except.ok (TExpr.int (-(2 ^ 63)))
    ∧ ((-(2 ^ 63) : Int) < 0) := by
  refine ⟨rfl, ?_, by norm_num⟩
  have h := (claim_C10 (2 ^ 63) (newr 0 19) (SymbolTable.mk [] Option.none)
    (by norm_num) (by norm_num)).1
  rw [h]
  norm_num

/-- C2 (counterexample): lowering a `TExpr::Call` does *not* begin with
`PushNone`; the first emitted opcode is `GetLocal {stack_offset: 0}`
(the enclosing stack-frame pointer).  Here: a call (uid 11, one
argument) to a function named 7 found in the current scope. -/
theorem claim_C2_counterexample :
    convert_expression_to_ops [(11, 7)] (OffsetTable.mk [(7, 1)] Option.none)
      (TExpr.call 11 [TExpr.int 1] Ty.none)
      = some [Opcode.getLocal 0, Opcode.makeInt 1, Opcode.call 11, Opcode.pop]
    ∧ (convert_expression_to_ops [(11, 7)] (OffsetTable.mk [(7, 1)] Option.none)
        (TExpr.call 11 [TExpr.int 1] Ty.none)).map List.head?
      = some (some (Opcode.getLocal 0))
    ∧ Opcode.getLocal 0 ≠ Opcode.pushNone :=
  ⟨rfl, rfl, by decide⟩

/-- The per-argument lowerings of a call, in source order. -/
def convert_each (fns : List (Nat × Nat)) (offsets : OffsetTable) :
    List TExpr → Option (List (List Opcode))
  | [] => some []
  | e :: rest => do
    let o ← convert_expression_to_ops fns offsets e
    let os ← convert_each fns offsets rest
    pure (o :: os)

theorem convert_arguments_rev_eq (fns : List (Nat × Nat)) (offsets : OffsetTable) :
    ∀ (args : List TExpr) (opsList : List (List Opcode)),
    convert_each fns offsets args = some opsList →
    convert_arguments_rev fns offsets args = some opsList.reverse.flatten := by
  intro args
  induction args with
  | nil =>
    intro opsList h
    simp only [convert_each, Option.some.injEq] at h
    subst h
    rfl
  | cons e rest ih =>
    intro opsList h
    cases he : convert_expression_to_ops fns offsets e with
    | none => simp [convert_each, he, bind, Option.bind] at h
    | some eOps =>
      cases hr : convert_each fns offsets rest with
      | none => simp [convert_each, he, hr, bind, Option.bind] at h
      | some restOps =>
        simp only [convert_each, he, hr, bind, Option.bind, pure, Option.some.injEq] at h
        subst h
        simp [convert_arguments_rev, ih restOps hr, he, bind, Option.bind]

/-- C2 (amended): lowering a `TExpr::Call` emits the enclosing
stack-frame pointer first (`GetLocal {stack_offset: 0}` followed by one
`HeapRead {offset: 0}` per scope level between use and the callee's
definition), then the argument expressions in reverse source order,
then the `Call` opcode, then exactly one `Pop` per argument.  (The
callee's prologue overwrites the frame-pointer slot with `None` and
later its return value, so after the `Pop`s the return value remains
on top of the stack.) -/
theorem claim_C2 (fns : List (Nat × Nat)) (offsets : OffsetTable) (uid : Nat)
    (args : List TExpr) (t : Ty) (name : Nat) (info : OffsetInfo)
    (opsList : List (List Opcode))
    (hname : lookupA fns uid = some name)
    (hinfo : offsets.search name = some info)
    (hargs : convert_each fns offsets args = some opsList) :
    convert_expression_to_ops fns offsets (TExpr.call uid args t)
      = some ([Opcode.getLocal 0]
          ++ List.replicate info.scope_offset (Opcode.heapRead 0)
          ++ opsList.reverse.flatten
          ++ [Opcode.call uid]
          ++ List.replicate args.length Opcode.pop) := by
  have hrev := convert_arguments_rev_eq fns offsets args opsList hargs
  simp [convert_expression_to_ops, hname, hinfo, hrev, bind, Option.bind]

/-- Witness for C2: a two-argument call (uid 11) to a function named 7
one scope level up; the emitted opcodes are the frame-pointer chain,
the arguments reversed, the call, and two pops. -/
theorem claim_C2_witness :
    convert_expression_to_ops [(11, 7)]
      (OffsetTable.mk [] (some (OffsetTable.mk [(7, 1)] Option.none)))
      (TExpr.call 11 [TExpr.int 1, TExpr.int 2] Ty.none)
      = some [Opcode.getLocal 0, Opcode.heapRead 0, Opcode.makeInt 2, Opcode.makeInt 1,
          Opcode.call 11, Opcode.pop, Opcode.pop] := by
  have h := claim_C2 [(11, 7)]
    (OffsetTable.mk [] (some (OffsetTable.mk [(7, 1)] Option.none)))
    11 [TExpr.int 1, TExpr.int 2] Ty.none 7 ⟨1, 1⟩ [[Opcode.makeInt 1], [Opcode.makeInt 2]]
    rfl rfl rfl
  simpa using h

mutual

/-- The §3 invariant on `Add`/`Minus` nodes, restricted to what the
code enforces: both operands' types equal the node's own type,
recursively. -/
def TExpr.addTypesOk : TExpr → Bool
  | .minus l r t => (decide (l.type_ = t) && decide (r.type_ = t)) && (l.addTypesOk && r.addTypesOk)
  | .add l r t => (decide (l.type_ = t) && decide (r.type_ = t)) && (l.addTypesOk && r.addTypesOk)
  | .call _ args _ => TExpr.addTypesOkList args
  | .ecall args => TExpr.addTypesOkList args
  | _ => true

/-- `TExpr.addTypesOk` over a list of expressions. -/
def TExpr.addTypesOkList : List TExpr → Bool
  | [] => true
  | e :: rest => e.addTypesOk && TExpr.addTypesOkList rest

end

mutual

/-- `TExpr.addTypesOk` over every expression in a statement. -/
def TStmt.addTypesOk : TStmt → Bool
  | .expr e => e.addTypesOk
  | .assign _ value => value.addTypesOk
  | .function _ _ _ stmts => TStmt.addTypesOkList stmts
  | .sif c t f => c.addTypesOk && (TStmt.addTypesOkList t && TStmt.addTypesOkList f)
  | .swhile c b e => c.addTypesOk && (TStmt.addTypesOkList b && TStmt.addTypesOkList e)
  | .sbreak => true
  | .sreturn r => r.addTypesOk

/-- `TStmt.addTypesOk` over a statement list. -/
def TStmt.addTypesOkList : List TStmt → Bool
  | [] => true
  | s :: rest => s.addTypesOk && TStmt.addTypesOkList rest

end

unseal check_stmts check_stmts_loop check_if_branches in
/-- C3 (counterexample): `check_program` succeeds on `True + False`,
whose `Add` node has type `Bool` — not a numeric type — refuting the
"the type is numeric (Int or Float)" half of the claim.  (The
types-all-equal half survives; see the amended theorem.) -/
theorem claim_C3_counterexample :
    check_program
        [Stmt.expr (Expr.add (Expr.true (newr 0 4)) (Expr.false (newr 7 12)) (newr 0 12))]
      = Except.ok ⟨[Declaration.mk 1],
          [TStmt.expr (TExpr.add (TExpr.bool true) (TExpr.bool false) Ty.bool),
           TStmt.function 1 [2] []
             [TStmt.expr (TExpr.ecall [TExpr.int 0, TExpr.ident 2 Ty.any])]]⟩
    ∧ Ty.bool ≠ Ty.int ∧ Ty.bool ≠ Ty.float :=
  ⟨rfl, by decide, by decide⟩

mutual

theorem check_expr_types_ok : ∀ (sym : SymbolTable) (e : Expr) (te : TExpr),
    check_expr sym e = Except.ok te → TExpr.addTypesOk te = true
  | sym, .int v w, te, h => by
    simp only [check_expr, Except.ok.injEq] at h
    subst h
    rfl
  | sym, .float v w, te, h => by
    simp only [check_expr, Except.ok.injEq] at h
    subst h
    rfl
  | sym, .none w, te, h => by
    simp only [check_expr, Except.ok.injEq] at h
    subst h
    rfl
  | sym, .true w, te, h => by
    simp only [check_expr, Except.ok.injEq] at h
    subst h
    rfl
  | sym, .false w, te, h => by
    simp only [check_expr, Except.ok.injEq] at h
    subst h
    rfl
  | sym, .ident id view, te, h => by
    simp only [check_expr] at h
    split at h
    · exact Except.noConfusion h
    · simp only [Except.ok.injEq] at h
      subst h
      rfl
    · exact Except.noConfusion h
  | sym, .minus l r view, te, h => by
    simp only [check_expr] at h
    cases hl : check_expr sym l with
    | error e' => rw [hl] at h; exact Except.noConfusion h
    | ok tl =>
      cases hr : check_expr sym r with
      | error e' =>
        rw [hl, hr] at h
        simp only [bind, Except.bind] at h
        exact Except.noConfusion h
      | ok tr =>
        rw [hl, hr] at h
        simp only [bind, Except.bind] at h
        by_cases heq : tl.type_ = tr.type_
        · rw [if_pos heq] at h
          simp only [Except.ok.injEq] at h
          subst h
          have h1 := check_expr_types_ok sym l tl hl
          have h2 := check_expr_types_ok sym r tr hr
          simp [TExpr.addTypesOk, h1, h2, heq]
        · rw [if_neg heq] at h
          exact Except.noConfusion h
  | sym, .add l r view, te, h => by
    simp only [check_expr] at h
    cases hl : check_expr sym l with
    | error e' => rw [hl] at h; exact Except.noConfusion h
    | ok tl =>
      cases hr : check_expr sym r with
      | error e' =>
        rw [hl, hr] at h
        simp only [bind, Except.bind] at h
        exact Except.noConfusion h
      | ok tr =>
        rw [hl, hr] at h
        simp only [bind, Except.bind] at h
        by_cases heq : tl.type_ = tr.type_
        · rw [if_pos heq] at h
          simp only [Except.ok.injEq] at h
          subst h
          have h1 := check_expr_types_ok sym l tl hl
          have h2 := check_expr_types_ok sym r tr hr
          simp [TExpr.addTypesOk, h1, h2, heq]
        · rw [if_neg heq] at h
          exact Except.noConfusion h
  | sym, .call callee cv args av, te, h => by
    simp only [check_expr] at h
    split at h
    · exact Except.noConfusion h
    · rename_i uid rt formals fw heq
      split at h
      · exact Except.noConfusion h
      · cases ha : check_call_args sym formals args with
        | error e' =>
          rw [ha] at h
          simp only [bind, Except.bind] at h
          exact Except.noConfusion h
        | ok targs =>
          rw [ha] at h
          simp only [bind, Except.bind, Except.ok.injEq] at h
          subst h
          have := check_call_args_types_ok sym formals args targs ha
          simpa [TExpr.addTypesOk] using this
    · exact Except.noConfusion h
  | sym, .dotAccess p mid mv, te, h => by
    simp only [check_expr] at h
    exact Except.noConfusion h
  | sym, .tup vs v, te, h => by
    simp only [check_expr] at h
    exact Except.noConfusion h

theorem check_call_args_types_ok : ∀ (sym : SymbolTable) (formals : List Ty)
    (args : List Expr) (targs : List TExpr),
    check_call_args sym formals args = Except.ok targs →
    TExpr.addTypesOkList targs = true
  | sym, [], args, targs, h => by
    simp only [check_call_args, Except.ok.injEq] at h
    subst h
    rfl
  | sym, formal :: fs, [], targs, h => by
    simp only [check_call_args, Except.ok.injEq] at h
    subst h
    rfl
  | sym, formal :: fs, arg :: rest, targs, h => by
    simp only [check_call_args] at h
    cases ha : check_expr sym arg with
    | error e' => rw [ha] at h; exact Except.noConfusion h
    | ok targ =>
      rw [ha] at h
      simp only [bind, Except.bind] at h
      by_cases hc : ¬ is_assignment_compatible formal targ.type_ = true
      · rw [if_pos hc] at h
        exact Except.noConfusion h
      · rw [if_neg hc] at h
        cases hrest : check_call_args sym fs rest with
        | error e' =>
          rw [hrest] at h
          simp only [bind, Except.bind] at h
          exact Except.noConfusion h
        | ok trest =>
          rw [hrest] at h
          simp only [bind, Except.bind, Except.ok.injEq] at h
          subst h
          have h1 := check_expr_types_ok sym arg targ ha
          have h2 := check_call_args_types_ok sym fs rest trest hrest
          simp [TExpr.addTypesOkList, h1, h2]

end

theorem buildIf_types_ok : ∀ (ifstmts : List (TExpr × List TStmt)) (acc : List TStmt),
    (∀ p ∈ ifstmts, TExpr.addTypesOk p.1 = true ∧ TStmt.addTypesOkList p.2 = true) →
    TStmt.addTypesOkList acc = true →
    TStmt.addTypesOkList (buildIf ifstmts acc) = true := by
  intro ifstmts
  induction ifstmts with
  | nil => intro acc _ hacc; simpa [buildIf] using hacc
  | cons p rest ih =>
    intro acc hall hacc
    obtain ⟨c, b⟩ := p
    have hp := hall (c, b) (List.mem_cons_self _ _)
    have hrest := ih acc (fun q hq => hall q (List.mem_cons_of_mem _ hq)) hacc
    simp [buildIf, TStmt.addTypesOkList, TStmt.addTypesOk, hp.1, hp.2, hrest]

mutual

theorem check_stmts_types_ok : ∀ (types : List (Nat × Ty)) (uid : Nat) (in_loop : Bool)
    (stmts : List Stmt) (sym : SymbolTable) (return_type : Option Ty)
    (uid' : Nat) (sym' : SymbolTable) (ts : List TStmt),
    check_stmts types uid in_loop stmts sym return_type = Except.ok (uid', sym', ts) →
    TStmt.addTypesOkList ts = true
  | types, uid, in_loop, stmts, sym, return_type, uid', sym', ts, h => by
    rw [check_stmts] at h
    cases ha : add_function_symbols types uid sym stmts with
    | error e' =>
      rw [ha] at h
      simp only [bind, Except.bind] at h
      exact Except.noConfusion h
    | ok p =>
      rw [ha] at h
      simp only [bind, Except.bind] at h
      exact check_stmts_loop_types_ok types p.1 in_loop stmts p.2 return_type uid' sym' ts h
  termination_by types uid in_loop stmts => (sizeOf stmts, 1)

theorem check_stmts_loop_types_ok : ∀ (types : List (Nat × Ty)) (uid : Nat) (in_loop : Bool)
    (stmts : List Stmt) (sym : SymbolTable) (return_type : Option Ty)
    (uid' : Nat) (sym' : SymbolTable) (ts : List TStmt),
    check_stmts_loop types uid in_loop stmts sym return_type = Except.ok (uid', sym', ts) →
    TStmt.addTypesOkList ts = true
  | types, uid, in_loop, [], sym, return_type, uid', sym', ts, h => by
    rw [check_stmts_loop] at h
    simp only [Except.ok.injEq, Prod.mk.injEq] at h
    rw [← h.2.2]
    rfl
  | types, uid, in_loop, Stmt.pass :: rest, sym, return_type, uid', sym', ts, h => by
    rw [check_stmts_loop] at h
    exact check_stmts_loop_types_ok types uid in_loop rest sym return_type uid' sym' ts h
  | types, uid, in_loop, Stmt.expr e :: rest, sym, return_type, uid', sym', ts, h => by
    rw [check_stmts_loop] at h
    cases he : check_expr sym e with
    | error e' => rw [he] at h; exact Except.noConfusion h
    | ok te =>
      rw [he] at h
      simp only [bind, Except.bind] at h
      cases hrest : check_stmts_loop types uid in_loop rest sym return_type with
      | error e' => rw [hrest] at h; exact Except.noConfusion h
      | ok q =>
        rw [hrest] at h
        simp only [Except.ok.injEq, Prod.mk.injEq] at h
        rw [← h.2.2]
        have h1 := check_expr_types_ok sym e te he
        have h2 := check_stmts_loop_types_ok types uid in_loop rest sym return_type
          q.1 q.2.1 q.2.2 (by rw [hrest])
        simp [TStmt.addTypesOkList, TStmt.addTypesOk, h1, h2]
  | types, uid, in_loop, Stmt.sreturn rv :: rest, sym, return_type, uid', sym', ts, h => by
    rw [check_stmts_loop] at h
    cases hrt : return_type with
    | none =>
      rw [hrt] at h
      simp only [unwrapErr, bind, Except.bind] at h
      exact Except.noConfusion h
    | some rt =>
      rw [hrt] at h
      simp only [unwrapErr, bind, Except.bind] at h
      cases he : check_expr sym rv with
      | error e' => rw [he] at h; exact Except.noConfusion h
      | ok tret =>
        rw [he] at h
        simp only [bind, Except.bind] at h
        split at h
        · exact Except.noConfusion h
        · cases hrest : check_stmts_loop types uid in_loop rest sym (some rt) with
          | error e' => rw [hrest] at h; simp only [bind, Except.bind] at h; exact Except.noConfusion h
          | ok q =>
            rw [hrest] at h
            simp only [bind, Except.bind, Except.ok.injEq, Prod.mk.injEq] at h
            rw [← h.2.2]
            have h1 := check_expr_types_ok sym rv tret he
            have h2 := check_stmts_loop_types_ok types uid in_loop rest sym (some rt)
              q.1 q.2.1 q.2.2 (by rw [hrest])
            simp [TStmt.addTypesOkList, TStmt.addTypesOk, h1, h2]
  | types, uid, in_loop, Stmt.declare name nv tn tv value :: rest, sym, return_type,
      uid', sym', ts, h => by
    rw [check_stmts_loop] at h
    cases ht : lookupA types tn with
    | none =>
      rw [ht] at h
      simp only [unwrapErr, bind, Except.bind] at h
      exact Except.noConfusion h
    | some decl_type =>
      rw [ht] at h
      simp only [unwrapErr, bind, Except.bind] at h
      cases hd : (sym.declare name (SymbolInfo.var uid decl_type nv)) with
      | error e' => rw [hd] at h; exact Except.noConfusion h
      | ok sym1 =>
        rw [hd] at h
        simp only [bind, Except.bind] at h
        cases he : check_expr sym1 value with
        | error e' => rw [he] at h; exact Except.noConfusion h
        | ok te =>
          rw [he] at h
          simp only [bind, Except.bind] at h
          split at h
          · exact Except.noConfusion h
          · cases hrest : check_stmts_loop types (uid + 1) in_loop rest sym1 return_type with
            | error e' =>
              rw [hrest] at h
              simp only [bind, Except.bind] at h
              exact Except.noConfusion h
            | ok q =>
              rw [hrest] at h
              simp only [bind, Except.bind, Except.ok.injEq, Prod.mk.injEq] at h
              rw [← h.2.2]
              have h1 := check_expr_types_ok sym1 value te he
              have h2 := check_stmts_loop_types_ok types (uid + 1) in_loop rest sym1 return_type
                q.1 q.2.1 q.2.2 (by rw [hrest])
              simp [TStmt.addTypesOkList, TStmt.addTypesOk, h1, h2]
  | types, uid, in_loop, Stmt.assign to_ tov value :: rest, sym, return_type,
      uid', sym', ts, h => by
    rw [check_stmts_loop] at h
    cases hs : sym.search to_ with
    | none =>
      rw [hs] at h
      simp only [unwrapErr, bind, Except.bind] at h
      exact Except.noConfusion h
    | some info =>
      rw [hs] at h
      simp only [unwrapErr, bind, Except.bind] at h
      cases info with
      | function _ _ _ _ => exact Except.noConfusion h
      | var to_uid to_type w =>
        cases he : check_expr sym value with
        | error e' => rw [he] at h; exact Except.noConfusion h
        | ok te =>
          rw [he] at h
          simp only [bind, Except.bind] at h
          split at h
          · exact Except.noConfusion h
          · cases hrest : check_stmts_loop types uid in_loop rest sym return_type with
            | error e' =>
              rw [hrest] at h
              simp only [bind, Except.bind] at h
              exact Except.noConfusion h
            | ok q =>
              rw [hrest] at h
              simp only [bind, Except.bind, Except.ok.injEq, Prod.mk.injEq] at h
              rw [← h.2.2]
              have h1 := check_expr_types_ok sym value te he
              have h2 := check_stmts_loop_types_ok types uid in_loop rest sym return_type
                q.1 q.2.1 q.2.2 (by rw [hrest])
              simp [TStmt.addTypesOkList, TStmt.addTypesOk, h1, h2]
  | types, uid, in_loop, Stmt.function name nv rtv arguments return_type_ body :: rest,
      sym, return_type, uid', sym', ts, h => by
    rw [check_stmts_loop] at h
    split at h
    · exact Except.noConfusion h
    · exact Except.noConfusion h
    · rename_i fuid rtype arg_types fv heq
      cases hp : declareParams uid (symbols_ sym) (arguments.zip arg_types) with
      | error e' =>
        rw [hp] at h
        simp only [bind, Except.bind] at h
        exact Except.noConfusion h
      | ok p =>
        rw [hp] at h
        simp only [bind, Except.bind] at h
        cases hb : check_stmts types p.1 in_loop body (symbols_ p.2.1) (some rtype) with
        | error e' =>
          rw [hb] at h
          simp only [bind, Except.bind] at h
          exact Except.noConfusion h
        | ok q =>
          rw [hb] at h
          simp only [bind, Except.bind] at h
          cases hrest : check_stmts_loop types q.1 in_loop rest sym return_type with
          | error e' =>
            rw [hrest] at h
            simp only [bind, Except.bind] at h
            exact Except.noConfusion h
          | ok q' =>
            rw [hrest] at h
            simp only [bind, Except.bind, Except.ok.injEq, Prod.mk.injEq] at h
            rw [← h.2.2]
            have h1 := check_stmts_types_ok types p.1 in_loop body (symbols_ p.2.1) (some rtype)
              q.1 q.2.1 q.2.2 (by rw [hb])
            have h2 := check_stmts_loop_types_ok types q.1 in_loop rest sym return_type
              q'.1 q'.2.1 q'.2.2 (by rw [hrest])
            simp [TStmt.addTypesOkList, TStmt.addTypesOk, h1, h2]
  | types, uid, in_loop, Stmt.swhile condition block else_branch :: rest,
      sym, return_type, uid', sym', ts, h => by
    rw [check_stmts_loop] at h
    cases hc : check_expr sym condition with
    | error e' => rw [hc] at h; exact Except.noConfusion h
    | ok tcond =>
      rw [hc] at h
      simp only [bind, Except.bind] at h
      cases hb : check_stmts types uid true block (symbols_ sym) return_type with
      | error e' => rw [hb] at h; exact Except.noConfusion h
      | ok p =>
        rw [hb] at h
        simp only [bind, Except.bind] at h
        cases hf : p.2.1.fold_into_parent with
        | error e' => rw [hf] at h; exact Except.noConfusion h
        | ok sym1 =>
          rw [hf] at h
          simp only [bind, Except.bind] at h
          cases he : check_stmts types p.1 in_loop else_branch (symbols_ sym1) return_type with
          | error e' => rw [he] at h; exact Except.noConfusion h
          | ok p' =>
            rw [he] at h
            simp only [bind, Except.bind] at h
            cases hf' : p'.2.1.fold_into_parent with
            | error e' => rw [hf'] at h; exact Except.noConfusion h
            | ok sym2 =>
              rw [hf'] at h
              simp only [bind, Except.bind] at h
              cases hrest : check_stmts_loop types p'.1 in_loop rest sym2 return_type with
              | error e' =>
                rw [hrest] at h
                simp only [bind, Except.bind] at h
                exact Except.noConfusion h
              | ok q =>
                rw [hrest] at h
                simp only [bind, Except.bind, Except.ok.injEq, Prod.mk.injEq] at h
                rw [← h.2.2]
                have h1 := check_expr_types_ok sym condition tcond hc
                have h2 := check_stmts_types_ok types uid true block (symbols_ sym) return_type
                  p.1 p.2.1 p.2.2 (by rw [hb])
                have h3 := check_stmts_types_ok types p.1 in_loop else_branch (symbols_ sym1)
                  return_type p'.1 p'.2.1 p'.2.2 (by rw [he])
                have h4 := check_stmts_loop_types_ok types p'.1 in_loop rest sym2 return_type
                  q.1 q.2.1 q.2.2 (by rw [hrest])
                simp [TStmt.addTypesOkList, TStmt.addTypesOk, h1, h2, h3, h4]
  | types, uid, in_loop, Stmt.sbreak :: rest, sym, return_type, uid', sym', ts, h => by
    rw [check_stmts_loop] at h
    cases hrest : check_stmts_loop types uid in_loop rest sym return_type with
    | error e' => rw [hrest] at h; exact Except.noConfusion h
    | ok q =>
      rw [hrest] at h
      simp only [bind, Except.bind, Except.ok.injEq, Prod.mk.injEq] at h
      rw [← h.2.2]
      have h2 := check_stmts_loop_types_ok types uid in_loop rest sym return_type
        q.1 q.2.1 q.2.2 (by rw [hrest])
      simp [TStmt.addTypesOkList, TStmt.addTypesOk, h2]
  | types, uid, in_loop, Stmt.sif conditioned_blocks else_branch :: rest,
      sym, return_type, uid', sym', ts, h => by
    rw [check_stmts_loop] at h
    cases hbr : check_if_branches types uid in_loop sym return_type conditioned_blocks with
    | error e' => rw [hbr] at h; exact Except.noConfusion h
    | ok p =>
      rw [hbr] at h
      simp only [bind, Except.bind] at h
      cases he : check_stmts types p.1 in_loop else_branch (symbols_ sym) return_type with
      | error e' => rw [he] at h; exact Except.noConfusion h
      | ok p' =>
        rw [he] at h
        simp only [bind, Except.bind] at h
        cases hm : mergeStack (p.2.1 ++ [p'.2.1]) with
        | error e' => rw [hm] at h; exact Except.noConfusion h
        | ok merged =>
          rw [hm] at h
          simp only [bind, Except.bind] at h
          cases hf : merged.fold_into_parent with
          | error e' => rw [hf] at h; exact Except.noConfusion h
          | ok sym1 =>
            rw [hf] at h
            simp only [bind, Except.bind] at h
            have hbuild : TStmt.addTypesOkList (buildIf p.2.2 p'.2.2) = true := by
              apply buildIf_types_ok
              · exact check_if_branches_types_ok types uid in_loop sym return_type
                  conditioned_blocks p.1 p.2.1 p.2.2 (by rw [hbr])
              · exact check_stmts_types_ok types p.1 in_loop else_branch (symbols_ sym)
                  return_type p'.1 p'.2.1 p'.2.2 (by rw [he])
            cases hbi : buildIf p.2.2 p'.2.2 with
            | nil => rw [hbi] at h; exact Except.noConfusion h
            | cons x xs =>
              rw [hbi] at h
              cases hrest : check_stmts_loop types p'.1 in_loop rest sym1 return_type with
              | error e' =>
                rw [hrest] at h
                simp only [bind, Except.bind] at h
                exact Except.noConfusion h
              | ok q =>
                rw [hrest] at h
                simp only [bind, Except.bind, Except.ok.injEq, Prod.mk.injEq] at h
                rw [← h.2.2]
                rw [hbi] at hbuild
                have hx : TStmt.addTypesOk x = true := by
                  have := hbuild
                  simp only [TStmt.addTypesOkList, Bool.and_eq_true] at this
                  exact this.1
                have h2 := check_stmts_loop_types_ok types p'.1 in_loop rest sym1 return_type
                  q.1 q.2.1 q.2.2 (by rw [hrest])
                simp [TStmt.addTypesOkList, hx, h2]
  | types, uid, in_loop, Stmt.assignMember a b c :: rest, sym, return_type,
      uid', sym', ts, h => by
    rw [check_stmts_loop] at h
    exact Except.noConfusion h
  termination_by types uid in_loop stmts => (sizeOf stmts, 0)

theorem check_if_branches_types_ok : ∀ (types : List (Nat × Ty)) (uid : Nat) (in_loop : Bool)
    (sym : SymbolTable) (return_type : Option Ty)
    (branches : List (Expr × List Stmt)) (uid' : Nat) (tables : List SymbolTable)
    (ifstmts : List (TExpr × List TStmt)),
    check_if_branches types uid in_loop sym return_type branches
      = Except.ok (uid', tables, ifstmts) →
    ∀ p ∈ ifstmts, TExpr.addTypesOk p.1 = true ∧ TStmt.addTypesOkList p.2 = true
  | types, uid, in_loop, sym, return_type, [], uid', tables, ifstmts, h => by
    rw [check_if_branches] at h
    simp only [Except.ok.injEq, Prod.mk.injEq] at h
    rw [← h.2.2]
    intro p hp
    exact absurd hp (List.not_mem_nil p)
  | types, uid, in_loop, sym, return_type, (condition, block) :: rest,
      uid', tables, ifstmts, h => by
    rw [check_if_branches] at h
    cases hc : check_expr sym condition with
    | error e' => rw [hc] at h; exact Except.noConfusion h
    | ok tcond =>
      rw [hc] at h
      simp only [bind, Except.bind] at h
      cases hb : check_stmts types uid in_loop block (symbols_ sym) return_type with
      | error e' => rw [hb] at h; exact Except.noConfusion h
      | ok p =>
        rw [hb] at h
        simp only [bind, Except.bind] at h
        cases hrest : check_if_branches types p.1 in_loop sym return_type rest with
        | error e' =>
          rw [hrest] at h
          simp only [bind, Except.bind] at h
          exact Except.noConfusion h
        | ok q =>
          rw [hrest] at h
          simp only [bind, Except.bind, Except.ok.injEq, Prod.mk.injEq] at h
          rw [← h.2.2]
          intro pr hpr
          rcases List.mem_cons.mp hpr with hpr | hpr
          · subst hpr
            refine ⟨check_expr_types_ok sym condition tcond hc, ?_⟩
            exact check_stmts_types_ok types uid in_loop block (symbols_ sym) return_type
              p.1 p.2.1 p.2.2 (by rw [hb])
          · exact check_if_branches_types_ok types p.1 in_loop sym return_type rest
              q.1 q.2.1 q.2.2 (by rw [hrest]) pr hpr
  termination_by types uid in_loop sym return_type branches => (sizeOf branches, 0)

end

theorem addTypesOkList_append (a b : List TStmt)
    (ha : TStmt.addTypesOkList a = true) (hb : TStmt.addTypesOkList b = true) :
    TStmt.addTypesOkList (a ++ b) = true := by
  induction a with
  | nil => simpa using hb
  | cons s rest ih =>
    simp only [TStmt.addTypesOkList, Bool.and_eq_true] at ha
    simp only [List.cons_append, TStmt.addTypesOkList, Bool.and_eq_true]
    exact ⟨ha.1, ih ha.2⟩

/-- C3 (amended): on every program accepted by `check_program`, every
`Add`/`Minus` node of the resulting TIR has its left operand's type,
right operand's type and its own type all equal (`TStmt.addTypesOkList`
checks exactly this, recursively).  The "and the type is numeric"
half of the original claim is refuted by the counterexample: no
numeric-ness check exists in `check_expr`. -/
theorem claim_C3 (program : List Stmt) (tprog : TProgram)
    (h : check_program program = Except.ok tprog) :
    TStmt.addTypesOkList tprog.stmts = true := by
  rw [check_program] at h
  cases hc : check_stmts builtin_types UID_BEGIN false program
      (SymbolTable.mk builtin_symbols Option.none) Option.none with
  | error e' => rw [hc] at h; exact Except.noConfusion h
  | ok p =>
    rw [hc] at h
    simp only [bind, Except.bind, Except.ok.injEq] at h
    rw [← h]
    have h1 := check_stmts_types_ok builtin_types UID_BEGIN false program
      (SymbolTable.mk builtin_symbols Option.none) Option.none
      p.1 p.2.1 p.2.2 (by rw [hc])
    exact addTypesOkList_append _ _ h1 (by rfl)

unseal check_stmts check_stmts_loop check_if_branches in
/-- Witness for C3: the amended theorem applied to the concrete
`True + False` program. -/
theorem claim_C3_witness :
    TStmt.addTypesOkList
      [TStmt.expr (TExpr.add (TExpr.bool true) (TExpr.bool false) Ty.bool),
       TStmt.function 1 [2] []
         [TStmt.expr (TExpr.ecall [TExpr.int 0, TExpr.ident 2 Ty.any])]] = true :=
  claim_C3
    [Stmt.expr (Expr.add (Expr.true (newr 0 4)) (Expr.false (newr 7 12)) (newr 0 12))]
    ⟨[Declaration.mk 1],
      [TStmt.expr (TExpr.add (TExpr.bool true) (TExpr.bool false) Ty.bool),
       TStmt.function 1 [2] []
         [TStmt.expr (TExpr.ecall [TExpr.int 0, TExpr.ident 2 Ty.any])]]⟩
    (by rfl)

unseal runWhile indentLoop Lexer.nextNormal in
/-- C7 (counterexample): the input `"if x:\n  pass"` ends inside one
open indentation level without a trailing newline, yet the first `End`
token (after `pass`, which leaves the `Normal` state because the
keyword path of `next_normal` skips the end-of-input state switch)
precedes the `Dedent`. -/
theorem claim_C7_counterexample :
    lexN 8 (Lexer.new (asciiBytes "if x:\n  pass"))
      = some [Token.if_ 0, Token.ident 5 (newr 3 4), Token.colon 4, Token.newline 5,
          Token.indent 6 8, Token.pass 8, Token.end_ 12, Token.dedent 12]
    ∧ (asciiBytes "if x:\n  pass").getLast? ≠ some 10 :=
  ⟨rfl, by decide⟩

/-- C7 (amended): once the lexer is in the `End` state with `k`
indentation levels still open above the global level, the next `k`
calls each emit one `Dedent` and the following call emits `End` (and
`End` forever after).  The claimed ordering — all `Dedent`s before the
first `End` — is not universal: it depends on which transition entered
the `End` state.  The end-of-input branches of `next_indent` and
`next_normal` emit an `End` token at the same call that switches
state, so for inputs whose final token is a keyword or identifier
(whose lexing path skips the end-of-input switch of lines 318-321 of
`src/lexer.rs`, modelled by `Lexer.finishNormal`) that `End` precedes
the `Dedent`s, refuting the claim; the switch of lines 318-321 itself
enters the `End` state silently while returning a number or
punctuation token, and for such inputs the `Dedent`s do come before
the first `End`. -/
theorem claim_C7 (levels : List Nat) : ∀ (l : Lexer),
    l.state = LexerState.end_ →
    l.indent_stack = levels ++ [0] →
    lexN (levels.length + 1) l
      = some (List.replicate levels.length (Token.dedent l.index)
          ++ [Token.end_ l.index]) := by
  induction levels with
  | nil =>
    intro l hstate hstack
    simp [lexN, Lexer.next, hstate, hstack, bind, Option.bind]
  | cons x ls ih =>
    intro l hstate hstack
    obtain ⟨z, zs, hzs⟩ : ∃ z zs, ls ++ [0] = z :: zs := by
      cases ls with
      | nil => exact ⟨0, [], rfl⟩
      | cons y ys => exact ⟨y, ys ++ [0], by simp⟩
    have hstack2 : l.indent_stack = x :: z :: zs := by
      rw [hstack, List.cons_append, hzs]
    have hnext : l.next = some (Token.dedent l.index, { l with indent_stack := z :: zs }) := by
      rw [Lexer.next, hstate, hstack2]
    have ihl := ih { l with indent_stack := z :: zs } hstate (by simpa using hzs.symm)
    simp only [List.length_cons]
    rw [lexN, hnext]
    simp only [bind, Option.bind, ihl]
    simp [List.replicate_succ]

/-- Witness for C7 at a concrete `End`-state lexer with one open level:
the next two tokens are `Dedent` then `End`. -/
theorem claim_C7_witness :
    lexN 2 (Lexer.mk [] [] [] [5, 0] 3 0 0 LexerState.end_)
      = some [Token.dedent 3, Token.end_ 3] :=
  claim_C7 [5] (Lexer.mk [] [] [] [5, 0] 3 0 0 LexerState.end_) rfl rfl

theorem lookupA_append_left {α : Type} [DecidableEq α] {β : Type} :
    ∀ (xs ys : List (α × β)) (k : α) (v : β),
    lookupA xs k = some v → lookupA (xs ++ ys) k = some v := by
  intro xs ys k v h
  induction xs with
  | nil => rw [lookupA] at h; exact Option.noConfusion h
  | cons p rest ih =>
    obtain ⟨a, b⟩ := p
    rw [List.cons_append]
    by_cases hk : a = k
    · simpa [lookupA, hk] using h
    · rw [lookupA, if_neg hk] at h ⊢
      exact ih h

theorem lookupA_append_right {α : Type} [DecidableEq α] {β : Type} :
    ∀ (xs ys : List (α × β)) (k : α),
    lookupA xs k = Option.none → lookupA (xs ++ ys) k = lookupA ys k := by
  intro xs ys k h
  induction xs with
  | nil => rfl
  | cons p rest ih =>
    obtain ⟨a, b⟩ := p
    by_cases hk : a = k
    · rw [lookupA, if_pos hk] at h
      exact Option.noConfusion h
    · rw [lookupA, if_neg hk] at h
      rw [List.cons_append, lookupA, if_neg hk]
      exact ih h

theorem declare_lookup (t : SymbolTable) (k : Nat) (info : SymbolInfo) (t' : SymbolTable)
    (h : t.declare k info = Except.ok t') :
    lookupA t'.symbols k = some info
    ∧ ∀ n v, lookupA t.symbols n = some v → lookupA t'.symbols n = some v := by
  unfold SymbolTable.declare at h
  split at h
  · exact Except.noConfusion h
  · rename_i hnone
    simp only [Except.ok.injEq] at h
    subst h
    have hx : lookupA t.symbols k = Option.none := by
      cases hl : lookupA t.symbols k with
      | none => rfl
      | some v => rw [hl] at hnone; simp at hnone
    constructor
    · show lookupA (t.symbols ++ [(k, info)]) k = some info
      rw [lookupA_append_right _ _ _ hx]
      simp [lookupA]
    · intro n v hv
      exact lookupA_append_left _ _ _ _ hv

theorem afs_cons_function (types : List (Nat × Ty)) (uid : Nat) (sym : SymbolTable)
    (n2 : Nat) (nv2 rtv2 : CRange) (args2 : List FuncParam) (rt2 : Option Nat)
    (body2 : List Stmt) (rest : List Stmt) (uid' : Nat) (sym' : SymbolTable)
    (h : add_function_symbols types uid sym
        (Stmt.function n2 nv2 rtv2 args2 rt2 body2 :: rest) = Except.ok (uid', sym')) :
    ∃ drt ats sym1,
      sym.declare n2 (SymbolInfo.function uid drt ats nv2) = Except.ok sym1
      ∧ add_function_symbols types (uid + 1) sym1 rest = Except.ok (uid', sym') := by
  cases rt2 with
  | some r =>
    rw [add_function_symbols] at h
    simp only [bind, Except.bind] at h
    split at h
    · exact Except.noConfusion h
    · rename_i drt heq1
      split at h
      · exact Except.noConfusion h
      · rename_i ats heq2
        split at h
        · exact Except.noConfusion h
        · rename_i sym1 heq3
          exact ⟨drt, ats, sym1, heq3, h⟩
  | none =>
    rw [add_function_symbols] at h
    simp only [bind, Except.bind] at h
    split at h
    · exact Except.noConfusion h
    · rename_i ats heq2
      split at h
      · exact Except.noConfusion h
      · rename_i sym1 heq3
        exact ⟨Ty.none, ats, sym1, heq3, h⟩

theorem afs_preserves : ∀ (types : List (Nat × Ty)) (uid : Nat) (sym : SymbolTable)
    (stmts : List Stmt) (uid' : Nat) (sym' : SymbolTable),
    add_function_symbols types uid sym stmts = Except.ok (uid', sym') →
    ∀ n v, lookupA sym.symbols n = some v → lookupA sym'.symbols n = some v := by
  intro types uid sym stmts
  induction stmts generalizing uid sym with
  | nil =>
    intro uid' sym' h n v hv
    rw [add_function_symbols] at h
    simp only [Except.ok.injEq, Prod.mk.injEq] at h
    rw [← h.2]
    exact hv
  | cons s rest ih =>
    intro uid' sym' h n v hv
    cases s
    case function n2 nv2 rtv2 args2 rt2 body2 =>
      obtain ⟨drt, ats, sym1, hd, hrest⟩ :=
        afs_cons_function types uid sym n2 nv2 rtv2 args2 rt2 body2 rest uid' sym' h
      exact ih (uid + 1) sym1 uid' sym' hrest n v ((declare_lookup sym n2 _ sym1 hd).2 n v hv)
    all_goals
      simp only [add_function_symbols] at h
      exact ih uid sym uid' sym' h n v hv

theorem afs_declares_functions : ∀ (types : List (Nat × Ty)) (uid : Nat)
    (sym : SymbolTable) (stmts : List Stmt) (uid' : Nat) (sym' : SymbolTable)
    (name : Nat) (nv rtv : CRange) (args : List FuncParam) (rt : Option Nat)
    (body : List Stmt),
    Stmt.function name nv rtv args rt body ∈ stmts →
    add_function_symbols types uid sym stmts = Except.ok (uid', sym') →
    ∃ fuid frt fargs fview,
      lookupA sym'.symbols name = some (SymbolInfo.function fuid frt fargs fview) := by
  intro types uid sym stmts
  induction stmts generalizing uid sym with
  | nil =>
    intro uid' sym' name nv rtv args rt body hmem h
    exact absurd hmem (List.not_mem_nil _)
  | cons s rest ih =>
    intro uid' sym' name nv rtv args rt body hmem h
    cases s
    case function n2 nv2 rtv2 args2 rt2 body2 =>
      obtain ⟨drt, ats, sym1, hd, hrest⟩ :=
        afs_cons_function types uid sym n2 nv2 rtv2 args2 rt2 body2 rest uid' sym' h
      rcases List.mem_cons.mp hmem with heq | hmem2
      · obtain ⟨hn, -⟩ := Stmt.function.inj heq
        subst hn
        have h1 := (declare_lookup sym name _ sym1 hd).1
        have h2 := afs_preserves types (uid + 1) sym1 rest uid' sym' hrest name _ h1
        exact ⟨uid, drt, ats, nv2, h2⟩
      · exact ih (uid + 1) sym1 uid' sym' name nv rtv args rt body hmem2 hrest
    all_goals
      simp only [add_function_symbols] at h
      rcases List.mem_cons.mp hmem with heq | hmem2
      · exact Stmt.noConfusion heq
      · exact ih uid sym uid' sym' name nv rtv args rt body hmem2 h

unseal check_stmts check_stmts_loop check_if_branches in
/-- C8: function names are pre-scanned: `add_function_symbols` runs over
the whole statement list before any statement is visited, so every
nested function declared anywhere in a block is in scope (first
conjunct, in general); concretely, a call to a function defined later
in the same block type-checks (second conjunct), while a reference to
a variable declared later in the same block fails with
"referenced name doesn't exist" (third conjunct) — variables are not
pre-scanned. -/
theorem claim_C8 :
    (∀ (types : List (Nat × Ty)) (uid : Nat) (sym : SymbolTable) (stmts : List Stmt)
        (uid' : Nat) (sym' : SymbolTable) (name : Nat) (nv rtv : CRange)
        (args : List FuncParam) (rt : Option Nat) (body : List Stmt),
        Stmt.function name nv rtv args rt body ∈ stmts →
        add_function_symbols types uid sym stmts = Except.ok (uid', sym') →
        ∃ fuid frt fargs fview,
          lookupA sym'.symbols name = some (SymbolInfo.function fuid frt fargs fview))
    ∧ check_program
        [Stmt.expr (Expr.call 5 (newr 0 1) [] (newr 1 3)),
         Stmt.function 5 (newr 10 11) (newr 15 16) [] Option.none [Stmt.pass]]
      = Except.ok ⟨[Declaration.mk 1, Declaration.mk 10],
          [TStmt.expr (TExpr.call 10 [] Ty.none), TStmt.function 10 [] [] [],
           TStmt.function 1 [2] []
             [TStmt.expr (TExpr.ecall [TExpr.int 0, TExpr.ident 2 Ty.any])]]⟩
    ∧ check_program
        [Stmt.expr (Expr.ident 5 (newr 0 1)),
         Stmt.declare 5 (newr 2 3) INT_IDX (newr 5 8) (Expr.int 0 (newr 11 12))]
      = Except.error (Failure.diag (newr 0 1) "referenced name doesn't exist") :=
  ⟨afs_declares_functions, by rfl, by rfl⟩

/-- Witness for C8's general conjunct at a concrete pre-scan: a
single-function block declares that function's name into the scope. -/
theorem claim_C8_witness :
    ∃ fuid frt fargs fview,
      lookupA (SymbolTable.mk [(5, SymbolInfo.function 10 Ty.none [] (newr 0 1))]
          Option.none).symbols 5
        = some (SymbolInfo.function fuid frt fargs fview) :=
  claim_C8.1 builtin_types 10 (SymbolTable.mk [] Option.none)
    [Stmt.function 5 (newr 0 1) (newr 2 3) [] Option.none [Stmt.pass]]
    11 (SymbolTable.mk [(5, SymbolInfo.function 10 Ty.none [] (newr 0 1))] Option.none)
    5 (newr 0 1) (newr 2 3) [] Option.none [Stmt.pass]
    (List.mem_singleton.mpr rfl) (by rfl)

/-! ### C6: lexer totality -/

/-- The input's final byte is not `-` (whose lexing reads one byte past
the end of input, a panic). -/
def no_trailing_dash (data : List Nat) : Prop := data.getLast? ≠ some 45

instance (data : List Nat) : Decidable (no_trailing_dash data) := by
  unfold no_trailing_dash
  infer_instance

/-- Every digit run in the input has value at most `u64::MAX` (larger
literals make `parse::<u64>().unwrap()` panic). -/
def literals_fit (data : List Nat) : Prop :=
  ∀ p, p < data.length → isDigitByte (byteAt data p) = true →
    digitsVal (substrBytes data p (digitRun data p)) ≤ 2 ^ 64 - 1

instance (data : List Nat) : Decidable (literals_fit data) := by
  unfold literals_fit
  infer_instance

/-- The state invariant of reachable lexers: the indent stack is
nonempty with the global level 0 at its bottom, and once any level is
open (or while dedents are being drained) at least one input byte has
been consumed. -/
def Inv (l : Lexer) : Prop :=
  l.indent_stack ≠ []
  ∧ l.indent_stack.getLast? = some 0
  ∧ (1 < l.indent_stack.length → 1 ≤ l.index)
  ∧ (l.state = LexerState.dedent → 1 ≤ l.index)

/-- Lexer states reachable from `Lexer::new` on the given input by
repeated calls to `next`. -/
inductive Reachable (data : List Nat) : Lexer → Prop where
  | base : Reachable data (Lexer.new data)
  | step {l : Lexer} {t : Token} {l' : Lexer} :
      Reachable data l → l.next = some (t, l') → Reachable data l'

theorem digitRun_ge (data : List Nat) (i : Nat) : i ≤ digitRun data i :=
  runWhile_ge isDigitByte data i

theorem digitRun_gt (data : List Nat) (i : Nat) (hlt : i < data.length)
    (hdig : isDigitByte (byteAt data i) = true) : i + 1 ≤ digitRun data i :=
  runWhile_gt isDigitByte data i hlt hdig

theorem isDigitByte_ne_zero {b : Nat} (h : isDigitByte b = true) : b ≠ 0 := by
  unfold isDigitByte at h
  simp only [Bool.and_eq_true, decide_eq_true_eq] at h
  omega

theorem getLast?_of_byteAt (data : List Nat) (i : Nat) (h : i + 1 = data.length) :
    data.getLast? = some (byteAt data i) := by
  rw [List.getLast?_eq_getElem?]
  have hi : i < data.length := by omega
  rw [show data.length - 1 = i from by omega]
  rw [List.getElem?_eq_getElem hi]
  unfold byteAt
  rw [List.getD_eq_getElem data 0 hi]

theorem indentLoop_spec (data : List Nat) (lvl b i : Nat) :
    i ≤ (indentLoop data lvl b i).2.2
    ∧ ((indentLoop data lvl b i).2.2 = i → (indentLoop data lvl b i).1 = lvl) := by
  rw [indentLoop]
  split
  · split
    · have h := indentLoop_spec data 0 i (i + 1)
      exact ⟨by omega, fun he => absurd he (by omega)⟩
    · have h := indentLoop_spec data ((lvl + 1) % 2 ^ 16) b (i + 1)
      exact ⟨by omega, fun he => absurd he (by omega)⟩
    · have h := indentLoop_spec data ((lvl + (8 - lvl % 8)) % 2 ^ 16) b (i + 1)
      exact ⟨by omega, fun he => absurd he (by omega)⟩
    · exact ⟨Nat.le_refl i, fun _ => rfl⟩
  · exact ⟨Nat.le_refl i, fun _ => rfl⟩
termination_by data.length - i

theorem finishNormal_spec (l : Lexer) (tok : Token) :
    ∃ l', l.finishNormal tok = some (tok, l')
      ∧ l'.data = l.data ∧ l'.indent_stack = l.indent_stack
      ∧ l'.index = l.index ∧ l'.state = (if l.index = l.data.length then LexerState.end_ else l.state) := by
  unfold Lexer.finishNormal
  split
  · rename_i he
    exact ⟨{ l with state := LexerState.end_ }, rfl, rfl, rfl, rfl, by simp [he]⟩
  · rename_i he
    exact ⟨l, rfl, rfl, rfl, rfl, by simp [he]⟩

theorem alnumRun_ge (data : List Nat) (i : Nat) : i ≤ alnumRun data i :=
  runWhile_ge isAlphanumericByte data i

theorem finishNormal_result (base : Lexer) (tok : Token) (D : List Nat)
    (S : List Nat) (I : Nat)
    (hdata : base.data = D) (hstack : base.indent_stack = S)
    (hidx : I ≤ base.index) (hst : base.state ≠ LexerState.dedent) :
    ∃ t l', base.finishNormal tok = some (t, l')
      ∧ l'.data = D ∧ l'.indent_stack = S ∧ I ≤ l'.index
      ∧ l'.state ≠ LexerState.dedent := by
  obtain ⟨l', hfin, hd2, hs2, hi2, hst2⟩ := finishNormal_spec base tok
  refine ⟨tok, l', hfin, by rw [hd2, hdata], by rw [hs2, hstack], by omega, ?_⟩
  rw [hst2]
  split
  · simp
  · exact hst

theorem nextNormal_spec : ∀ (n : Nat) (l : Lexer),
    l.data.length - l.index ≤ n →
    no_trailing_dash l.data → literals_fit l.data → l.state ≠ LexerState.dedent →
    ∃ t l', l.nextNormal = some (t, l')
      ∧ l'.data = l.data ∧ l'.indent_stack = l.indent_stack
      ∧ l.index ≤ l'.index ∧ l'.state ≠ LexerState.dedent := by
  intro n
  induction n using Nat.strong_induction_on with
  | _ n ih =>
  intro l hle hd hf hs
  have hsge := skipWs_ge l.data l.index
  rw [Lexer.nextNormal]
  by_cases he : skipWs l.data l.index = l.data.length
  · rw [if_pos he]
    exact ⟨Token.end_ (skipWs l.data l.index), _, rfl, rfl, rfl, hsge, by simp⟩
  · rw [if_neg he]
    by_cases hb : byteAt l.data (skipWs l.data l.index) = 10
    · rw [dif_pos hb]
      by_cases hp : l.paren_count = 0
      · rw [if_pos hp]
        exact ⟨Token.newline (skipWs l.data l.index), _, rfl, rfl, rfl,
          (show l.index ≤ skipWs l.data l.index + 1 by omega), by simp⟩
      · rw [if_neg hp]
        have hlt : skipWs l.data l.index < l.data.length :=
          lt_length_of_byteAt_ne l.data (skipWs l.data l.index) (by rw [hb]; omega)
        obtain ⟨t, l', hnext, hdata, hstack, hidx, hst⟩ :=
          ih (l.data.length - (skipWs l.data l.index + 1)) (by omega)
            { l with index := skipWs l.data l.index + 1 } (Nat.le_refl _) hd hf hs
        have hidx2 : skipWs l.data l.index + 1 ≤ l'.index := hidx
        exact ⟨t, l', hnext, hdata, hstack, by omega, hst⟩
    · rw [dif_neg hb]
      split
      -- 40 '('
      · exact finishNormal_result _ _ _ _ _ rfl rfl
          (show l.index ≤ skipWs l.data l.index + 1 by omega) hs
      -- 41 ')'
      · exact finishNormal_result _ _ _ _ _ rfl rfl
          (show l.index ≤ skipWs l.data l.index + 1 by omega) hs
      -- 43 '+'
      · exact finishNormal_result _ _ _ _ _ rfl rfl
          (show l.index ≤ skipWs l.data l.index + 1 by omega) hs
      -- 45 '-'
      · rename_i x heq45
        by_cases hend : skipWs l.data l.index + 1 = l.data.length
        · exfalso
          apply hd
          rw [getLast?_of_byteAt l.data (skipWs l.data l.index) hend, heq45]
        · rw [if_neg hend]
          by_cases harrow : byteAt l.data (skipWs l.data l.index + 1) = 62
          · rw [if_pos harrow]
            exact finishNormal_result _ _ _ _ _ rfl rfl
              (show l.index ≤ skipWs l.data l.index + 2 by omega) hs
          · rw [if_neg harrow]
            exact finishNormal_result _ _ _ _ _ rfl rfl
              (show l.index ≤ skipWs l.data l.index + 1 by omega) hs
      -- 44 ','
      · exact finishNormal_result _ _ _ _ _ rfl rfl
          (show l.index ≤ skipWs l.data l.index + 1 by omega) hs
      -- 61 '='
      · exact finishNormal_result _ _ _ _ _ rfl rfl
          (show l.index ≤ skipWs l.data l.index + 1 by omega) hs
      -- 58 ':'
      · exact finishNormal_result _ _ _ _ _ rfl rfl
          (show l.index ≤ skipWs l.data l.index + 1 by omega) hs
      -- 46 '.'
      · exact finishNormal_result _ _ _ _ _ rfl rfl
          (show l.index ≤ skipWs l.data l.index + 1 by omega) hs
      -- catch-all byte
      · by_cases hdig : isDigitByte (byteAt l.data (skipWs l.data l.index)) = true
        · rw [if_pos hdig]
          have hdlt : skipWs l.data l.index < l.data.length := by
            apply lt_length_of_byteAt_ne
            intro hzero
            rw [hzero] at hdig
            exact absurd hdig (by decide)
          have hjge : skipWs l.data l.index + 1 ≤ digitRun l.data (skipWs l.data l.index) :=
            digitRun_gt l.data (skipWs l.data l.index) hdlt hdig
          by_cases hfl : digitRun l.data (skipWs l.data l.index) < l.data.length
              ∧ byteAt l.data (digitRun l.data (skipWs l.data l.index)) = 46
          · rw [if_pos hfl]
            have hk0 : ¬ digitRun l.data (digitRun l.data (skipWs l.data l.index) + 1) = 0 := by
              have := digitRun_ge l.data (digitRun l.data (skipWs l.data l.index) + 1)
              omega
            rw [if_neg hk0]
            exact finishNormal_result _ _ _ _ _ rfl rfl
              (show l.index ≤ digitRun l.data (digitRun l.data (skipWs l.data l.index) + 1) by
                have := digitRun_ge l.data (digitRun l.data (skipWs l.data l.index) + 1)
                omega) hs
          · rw [if_neg hfl]
            have hfit := hf (skipWs l.data l.index) hdlt hdig
            rw [if_pos hfit]
            have hj0 : ¬ digitRun l.data (skipWs l.data l.index) = 0 := by omega
            rw [if_neg hj0]
            exact finishNormal_result _ _ _ _ _ rfl rfl
              (show l.index ≤ digitRun l.data (skipWs l.data l.index) by omega) hs
        · rw [if_neg hdig]
          by_cases halpha : isAlphabeticByte (byteAt l.data (skipWs l.data l.index)) = true
          · rw [if_pos halpha]
            have hjge := alnumRun_ge l.data (skipWs l.data l.index)
            by_cases hk1 : substrBytes l.data (skipWs l.data l.index)
                (alnumRun l.data (skipWs l.data l.index)) = [112, 97, 115, 115]
            · rw [if_pos hk1]
              exact ⟨_, _, rfl, rfl, rfl,
                (show l.index ≤ alnumRun l.data (skipWs l.data l.index) by omega), hs⟩
            · rw [if_neg hk1]
              by_cases hk2 : substrBytes l.data (skipWs l.data l.index)
                  (alnumRun l.data (skipWs l.data l.index)) = [100, 101, 102]
              · rw [if_pos hk2]
                exact ⟨_, _, rfl, rfl, rfl,
                  (show l.index ≤ alnumRun l.data (skipWs l.data l.index) by omega), hs⟩
              · rw [if_neg hk2]
                by_cases hk3 : substrBytes l.data (skipWs l.data l.index)
                    (alnumRun l.data (skipWs l.data l.index)) = [114, 101, 116, 117, 114, 110]
                · rw [if_pos hk3]
                  exact ⟨_, _, rfl, rfl, rfl,
                    (show l.index ≤ alnumRun l.data (skipWs l.data l.index) by omega), hs⟩
                · rw [if_neg hk3]
                  by_cases hk4 : substrBytes l.data (skipWs l.data l.index)
                      (alnumRun l.data (skipWs l.data l.index)) = [105, 102]
                  · rw [if_pos hk4]
                    exact ⟨_, _, rfl, rfl, rfl,
                      (show l.index ≤ alnumRun l.data (skipWs l.data l.index) by omega), hs⟩
                  · rw [if_neg hk4]
                    by_cases hk5 : substrBytes l.data (skipWs l.data l.index)
                        (alnumRun l.data (skipWs l.data l.index)) = [101, 108, 115, 101]
                    · rw [if_pos hk5]
                      exact ⟨_, _, rfl, rfl, rfl,
                        (show l.index ≤ alnumRun l.data (skipWs l.data l.index) by omega), hs⟩
                    · rw [if_neg hk5]
                      by_cases hk6 : substrBytes l.data (skipWs l.data l.index)
                          (alnumRun l.data (skipWs l.data l.index)) = [101, 108, 105, 102]
                      · rw [if_pos hk6]
                        exact ⟨_, _, rfl, rfl, rfl,
                          (show l.index ≤ alnumRun l.data (skipWs l.data l.index) by omega), hs⟩
                      · rw [if_neg hk6]
                        cases hl : lookupA l.id_map (substrBytes l.data (skipWs l.data l.index)
                            (alnumRun l.data (skipWs l.data l.index))) with
                        | some id =>
                          exact ⟨_, _, rfl, rfl, rfl,
                            (show l.index ≤ alnumRun l.data (skipWs l.data l.index) by omega),
                            hs⟩
                        | none =>
                          exact ⟨_, _, rfl, rfl, rfl,
                            (show l.index ≤ alnumRun l.data (skipWs l.data l.index) by omega),
                            hs⟩
          · rw [if_neg halpha]
            exact finishNormal_result _ _ _ _ _ rfl rfl
              (show l.index ≤ skipWs l.data l.index + 1 by omega) hs

theorem nextDedentWith_spec (l : Lexer)
    (h1 : l.indent_stack ≠ [])
    (h2 : l.indent_stack.getLast? = some 0)
    (hidx : 1 ≤ l.index)
    (hd : no_trailing_dash l.data) (hf : literals_fit l.data) :
    ∃ t l', l.nextDedentWith Lexer.nextNormal = some (t, l')
      ∧ l'.data = l.data ∧ Inv l' := by
  unfold Lexer.nextDedentWith
  split
  · rename_i heq
    exact absurd heq h1
  · rename_i prev heq
    have hp : prev = 0 := by
      rw [heq] at h2
      simpa using h2
    by_cases hlt : l.indent_level < prev
    · exact absurd hlt (by omega)
    · rw [if_neg hlt]
      by_cases heq2 : l.indent_level = prev
      · rw [if_pos heq2]
        obtain ⟨t, l', hn, hdata, hstack, hidxge, hst⟩ :=
          nextNormal_spec l.data.length { l with state := LexerState.normal }
            (Nat.sub_le _ _) hd hf (by simp)
        refine ⟨t, l', hn, hdata, ?_, ?_, ?_, fun hdd => absurd hdd hst⟩
        · rw [hstack]; exact h1
        · rw [hstack]; exact h2
        · intro hlen
          exact le_trans hidx hidxge
      · rw [if_neg heq2, if_neg (show ¬ l.index = 0 by omega)]
        refine ⟨_, _, rfl, rfl, by simp, ?_, fun _ => hidx, by simp⟩
        rw [heq, List.getLast?_cons_cons]
        simp [hp]
  · rename_i prev newTop rest2 heq
    have h2' : (newTop :: rest2).getLast? = some 0 := by
      rw [heq, List.getLast?_cons_cons] at h2
      exact h2
    by_cases hlt : l.indent_level < prev
    · rw [if_pos hlt]
      by_cases hgt : l.indent_level > newTop
      · rw [if_pos hgt, if_neg (show ¬ l.index = 0 by omega)]
        refine ⟨_, _, rfl, rfl, by simp, ?_, fun _ => hidx, by simp⟩
        rw [List.getLast?_cons_cons]
        exact h2'
      · rw [if_neg hgt, if_neg (show ¬ l.index = 0 by omega)]
        exact ⟨_, _, rfl, rfl, by simp, h2', fun _ => hidx, fun _ => hidx⟩
    · rw [if_neg hlt]
      by_cases heq2 : l.indent_level = prev
      · rw [if_pos heq2]
        obtain ⟨t, l', hn, hdata, hstack, hidxge, hst⟩ :=
          nextNormal_spec l.data.length { l with state := LexerState.normal }
            (Nat.sub_le _ _) hd hf (by simp)
        refine ⟨t, l', hn, hdata, ?_, ?_, ?_, fun hdd => absurd hdd hst⟩
        · rw [hstack]; exact h1
        · rw [hstack]; exact h2
        · intro hlen
          exact le_trans hidx hidxge
      · rw [if_neg heq2, if_neg (show ¬ l.index = 0 by omega)]
        refine ⟨_, _, rfl, rfl, by simp, ?_, fun _ => hidx, by simp⟩
        rw [heq, List.getLast?_cons_cons, ← heq]
        exact h2

theorem nextIndent_spec (l : Lexer)
    (h1 : l.indent_stack ≠ [])
    (h2 : l.indent_stack.getLast? = some 0)
    (h3 : 1 < l.indent_stack.length → 1 ≤ l.index)
    (hd : no_trailing_dash l.data) (hf : literals_fit l.data) :
    ∃ t l', l.nextIndent = some (t, l')
      ∧ l'.data = l.data ∧ Inv l' := by
  have hloop := indentLoop_spec l.data 0 l.index l.index
  unfold Lexer.nextIndent
  split
  · rename_i heq
    exact absurd heq h1
  · rename_i prev rest heq
    by_cases hlt : (indentLoop l.data 0 l.index l.index).1 < prev
    · rw [if_pos hlt]
      have hidx2 : 1 ≤ (indentLoop l.data 0 l.index l.index).2.2 := by
        rcases rest with _ | ⟨y, ys⟩
        · exfalso
          rw [heq] at h2
          simp at h2
          omega
        · have hix := h3 (by rw [heq]; simp only [List.length_cons]; omega)
          omega
      obtain ⟨t, l', hn, hdata, hInv⟩ :=
        nextDedentWith_spec
          { l with index := (indentLoop l.data 0 l.index l.index).2.2,
                   state := LexerState.dedent,
                   indent_level := (indentLoop l.data 0 l.index l.index).1 }
          h1 h2 hidx2 hd hf
      exact ⟨t, l', hn, hdata, hInv⟩
    · rw [if_neg hlt]
      by_cases hend : (indentLoop l.data 0 l.index l.index).2.2 = l.data.length
      · rw [if_pos hend]
        refine ⟨_, _, rfl, rfl, h1, h2, ?_, by simp⟩
        intro hlen
        exact le_trans (h3 hlen) hloop.1
      · rw [if_neg hend]
        by_cases heq2 : (indentLoop l.data 0 l.index l.index).1 = prev
        · rw [if_pos heq2]
          obtain ⟨t, l', hn, hdata, hstack, hidxge, hst⟩ :=
            nextNormal_spec l.data.length
              { l with index := (indentLoop l.data 0 l.index l.index).2.2,
                       state := LexerState.normal }
              (Nat.sub_le _ _) hd hf (by simp)
          refine ⟨t, l', hn, hdata, ?_, ?_, ?_, fun hdd => absurd hdd hst⟩
          · rw [hstack]; exact h1
          · rw [hstack]; exact h2
          · intro hlen
            rw [hstack] at hlen
            exact le_trans (le_trans (h3 hlen) hloop.1) hidxge
        · rw [if_neg heq2]
          have hlvl : 1 ≤ (indentLoop l.data 0 l.index l.index).1 := by omega
          have hidxpos : 1 ≤ (indentLoop l.data 0 l.index l.index).2.2 := by
            by_contra hc
            have h0 : (indentLoop l.data 0 l.index l.index).2.2 = l.index := by omega
            have := hloop.2 h0
            omega
          refine ⟨_, _, rfl, rfl, by simp, ?_, fun _ => hidxpos, by simp⟩
          rw [heq, List.getLast?_cons_cons, ← heq]
          exact h2

theorem next_spec (l : Lexer) (hInv : Inv l)
    (hd : no_trailing_dash l.data) (hf : literals_fit l.data) :
    ∃ t l', l.next = some (t, l') ∧ l'.data = l.data ∧ Inv l' := by
  obtain ⟨h1, h2, h3, h4⟩ := hInv
  unfold Lexer.next
  split
  · rename_i hstate
    exact nextDedentWith_spec l h1 h2 (h4 hstate) hd hf
  · rename_i hstate
    obtain ⟨t, l', hn, hdata, hstack, hidxge, hst⟩ :=
      nextNormal_spec l.data.length l (Nat.sub_le _ _) hd hf (by rw [hstate]; simp)
    refine ⟨t, l', hn, hdata, ?_, ?_, ?_, fun hdd => absurd hdd hst⟩
    · rw [hstack]; exact h1
    · rw [hstack]; exact h2
    · intro hlen
      rw [hstack] at hlen
      exact le_trans (h3 hlen) hidxge
  · rename_i hstate
    exact nextIndent_spec l h1 h2 h3 hd hf
  · rename_i hstate
    split
    · rename_i x y rest heq
      refine ⟨_, _, rfl, rfl, by simp, ?_, ?_, h4⟩
      · rw [heq, List.getLast?_cons_cons] at h2
        exact h2
      · intro hlen
        exact h3 (by rw [heq]; simp only [List.length_cons]; omega)
    · exact ⟨_, _, rfl, rfl, h1, h2, h3, h4⟩

theorem reachable_spec (data : List Nat) (hd : no_trailing_dash data)
    (hf : literals_fit data) :
    ∀ l, Reachable data l → Inv l ∧ l.data = data := by
  intro l h
  induction h with
  | base =>
    refine ⟨⟨?_, ?_, ?_, ?_⟩, rfl⟩
    · simp [Lexer.new]
    · simp [Lexer.new]
    · intro hlen
      simp [Lexer.new] at hlen
    · intro hdd
      simp [Lexer.new] at hdd
  | step hr hnext ih =>
    obtain ⟨hInv, hdata⟩ := ih
    obtain ⟨t2, l2, hn, hdata2, hInv2⟩ :=
      next_spec _ hInv (by rw [hdata]; exact hd) (by rw [hdata]; exact hf)
    rw [hnext] at hn
    injection hn with hn1
    injection hn1 with hnt hnl
    rw [← hnl] at hInv2 hdata2
    exact ⟨hInv2, by rw [hdata2, hdata]⟩

unseal runWhile indentLoop Lexer.nextNormal in
/-- C6 (counterexample): `next` does panic on some inputs.  A lone `-`
makes `next_normal` read one byte past the end of the input
(`self.cur()` at the unguarded `Dash` branch), and a `21`-digit literal
above `u64::MAX` makes `parse::<u64>().unwrap()` panic; both are
`Option.none` in the embedding. -/
theorem claim_C6_counterexample :
    (Lexer.new (asciiBytes "-")).next = Option.none
      ∧ (Lexer.new (asciiBytes "18446744073709551616")).next = Option.none :=
  ⟨rfl, rfl⟩

/-- C6 (amended): on any input whose final byte is not `-` and whose
digit runs all fit in a `u64`, every call to `Lexer::next` from any
reachable lexer state returns a token (never panics); without those two
conditions this fails, per `claim_C6_counterexample`. -/
theorem claim_C6 (data : List Nat) (l : Lexer)
    (hr : Reachable data l) (hd : no_trailing_dash data) (hf : literals_fit data) :
    (l.next).isSome := by
  obtain ⟨hInv, hdata⟩ := reachable_spec data hd hf l hr
  obtain ⟨t, l', hn, _, _⟩ :=
    next_spec l hInv (by rw [hdata]; exact hd) (by rw [hdata]; exact hf)
  rw [hn]
  rfl

/-- Witness for C6: the amended theorem applied to the initial lexer on
the input `a`. -/
theorem claim_C6_witness :
    no_trailing_dash (asciiBytes "a") ∧ literals_fit (asciiBytes "a")
      ∧ ((Lexer.new (asciiBytes "a")).next).isSome :=
  ⟨by decide, by decide,
    claim_C6 (asciiBytes "a") (Lexer.new (asciiBytes "a")) Reachable.base
      (by decide) (by decide)⟩

end LanguageRs
